import Mathlib

/-!
Verification of the yenc-rs yEnc encoder/decoder.

Byte streams are modelled as `List Nat` with every element below 256
(`u8`), Rust `&str` values as lists of Unicode scalar values
(`List Nat`), and `usize` arithmetic as `Nat` with the checked
(panicking) semantics of overflowing subtraction made explicit through
`Option`.  Fallible operations return `Except`; operations that can
additionally panic return `POut`.
-/

set_option maxHeartbeats 1000000
set_option maxRecDepth 8000

/-- Unicode scalar values of a string literal, used to write byte/char lists. -/
def s2l (s : String) : List Nat := s.toList.map Char.toNat

/-- Wrapping `u8` addition: `a.wrapping_add(b)`. -/
def wadd8 (a b : Nat) : Nat := (a + b) % 256

/-- Wrapping `u8` subtraction: `a.wrapping_sub(b)`. -/
def wsub8 (a b : Nat) : Nat := (a + 256 - b % 256) % 256

/-- `consts::OFFSET`. -/
def OFFSET : Nat := 42

/-- `consts::ESCAPE_OFFSET`. -/
def ESCAPE_OFFSET : Nat := 64

/-- `consts::ESCAPE_CHAR`, the byte `'='`. -/
def ESCAPE_CHAR : Nat := 61

/-- `consts::LINE_LENGTH`, the default encoded line length. -/
def LINE_LENGTH : Nat := 128

/-- `consts::ESCAPING_CHARS`: NUL, TAB, LF, CR, SPACE, DOT, EQUAL. -/
def ESCAPING_CHARS : List Nat := [0, 9, 10, 13, 32, 46, 61]

/-- `encode::encode_byte`: `byte.wrapping_add(OFFSET)`. -/
def encode_byte (b : Nat) : Nat := wadd8 b OFFSET

/-- `decode::decode_byte`: `byte.wrapping_sub(OFFSET)`. -/
def decode_byte (b : Nat) : Nat := wsub8 b OFFSET

/-- `encode::needs_escape`: the encoded byte is reserved, or the raw byte is `'='`. -/
def needs_escape (b e : Nat) : Bool := ESCAPING_CHARS.contains e || b == ESCAPE_CHAR

/-- The one or two output bytes the encoder emits for one raw byte. -/
def chunkOf (b : Nat) : List Nat :=
  let e := encode_byte b
  if needs_escape b e then [ESCAPE_CHAR, wadd8 e ESCAPE_OFFSET] else [e]

/-- Whitespace bytes trimmed by `decode::trim_bytes` (space, tab, CR, LF). -/
def isWsB (b : Nat) : Bool := b == 32 || b == 9 || b == 13 || b == 10

/-- Drop trailing whitespace bytes. -/
def trimEnd (l : List Nat) : List Nat := (l.reverse.dropWhile isWsB).reverse

/-- `decode::trim_bytes`.  On a nonempty all-whitespace line the Rust code
slices `&line[start..end]` with `start > end`, which panics; that case is
`none`. -/
def trim_bytes (l : List Nat) : Option (List Nat) :=
  if l ≠ [] ∧ l.all isWsB = true then none
  else some (trimEnd (l.dropWhile isWsB))

/-- `BufRead::read_until(b'\n')` accumulator: cut the stream after each LF,
keeping the delimiter, with a final chunk for trailing bytes with no LF. -/
def readLinesAux : List Nat → List Nat → List (List Nat)
  | [], acc => if acc = [] then [] else [acc]
  | b :: rest, acc =>
    if b = 10 then (acc ++ [10]) :: readLinesAux rest []
    else readLinesAux rest (acc ++ [b])

/-- The sequence of lines `Decoder::decode` reads from the input stream. -/
def readLines (l : List Nat) : List (List Nat) := readLinesAux l []

/-- Unicode `White_Space` code points, as used by Rust `char::is_whitespace`
inside `str::split_whitespace`. -/
def isRustWs (c : Nat) : Bool :=
  [9, 10, 11, 12, 13, 32, 133, 160, 5760, 8192, 8193, 8194, 8195, 8196, 8197,
   8198, 8199, 8200, 8201, 8202, 8232, 8233, 8239, 8287, 12288].contains c

/-- `str::split_whitespace` accumulator. -/
def splitWsAux : List Nat → List Nat → List (List Nat)
  | [], acc => if acc = [] then [] else [acc]
  | c :: cs, acc =>
    if isRustWs c then
      (if acc = [] then splitWsAux cs [] else acc :: splitWsAux cs [])
    else splitWsAux cs (acc ++ [c])

/-- `str::split_whitespace` on a list of code points. -/
def splitWs (l : List Nat) : List (List Nat) := splitWsAux l []

/-- `str::split_once('=')`: split at the first `'='`. -/
def splitOnceEq : List Nat → Option (List Nat × List Nat)
  | [] => none
  | c :: cs =>
    if c = 61 then some ([], cs)
    else (splitOnceEq cs).map (fun p => (c :: p.1, p.2))

/-- ASCII decimal digit test. -/
def isDigitB (c : Nat) : Bool := decide (48 ≤ c ∧ c ≤ 57)

/-- Value of a nonempty all-digit string, with the `usize` overflow check of
Rust's `FromStr`. -/
def digitsVal? (s : List Nat) : Option Nat :=
  if s ≠ [] ∧ s.all isDigitB = true then
    let v := s.foldl (fun a c => a * 10 + (c - 48)) 0
    if v < 18446744073709551616 then some v else none
  else none

/-- `str::parse::<usize>()`: optional `'+'` sign, then decimal digits. -/
def parseNat (s : List Nat) : Option Nat :=
  match s with
  | 43 :: rest => digitsVal? rest
  | _ => digitsVal? s

/-- ASCII hexadecimal digit test (both cases). -/
def isHexDigitB (c : Nat) : Bool :=
  decide ((48 ≤ c ∧ c ≤ 57) ∨ (97 ≤ c ∧ c ≤ 102) ∨ (65 ≤ c ∧ c ≤ 70))

/-- Value of one hexadecimal digit code point. -/
def hexVal (c : Nat) : Nat := if c ≤ 57 then c - 48 else if c ≤ 70 then c - 55 else c - 87

/-- Value of a nonempty all-hex string, with the `u32` overflow check. -/
def hexDigitsVal? (s : List Nat) : Option Nat :=
  if s ≠ [] ∧ s.all isHexDigitB = true then
    let v := s.foldl (fun a c => a * 16 + hexVal c) 0
    if v < 4294967296 then some v else none
  else none

/-- `u32::from_str_radix(s, 16)`: optional `'+'` sign, then hex digits. -/
def parseHexU32 (s : List Nat) : Option Nat :=
  match s with
  | 43 :: rest => hexDigitsVal? rest
  | _ => hexDigitsVal? s

/-- Fuel-driven digit expansion for decimal rendering (structural recursion,
so that the kernel can evaluate it). -/
def natDecAux : Nat → Nat → List Nat
  | 0, _ => []
  | fuel + 1, n => if n < 10 then [48 + n] else natDecAux fuel (n / 10) ++ [48 + n % 10]

/-- Decimal rendering of a `Nat`, as Rust `{}` formatting of an unsigned
integer (code points of the digits); `n + 1` fuel always suffices. -/
def natDec (n : Nat) : List Nat := natDecAux (n + 1) n

/-- Lowercase hex digit code point for a nibble. -/
def hexDigitChar (d : Nat) : Nat := if d < 10 then 48 + d else 87 + d

/-- Rust `{:08x}` formatting of a `u32`: 8 zero-padded lowercase hex digits. -/
def hex8 (n : Nat) : List Nat :=
  [hexDigitChar (n / 268435456 % 16), hexDigitChar (n / 16777216 % 16),
   hexDigitChar (n / 1048576 % 16), hexDigitChar (n / 65536 % 16),
   hexDigitChar (n / 4096 % 16), hexDigitChar (n / 256 % 16),
   hexDigitChar (n / 16 % 16), hexDigitChar (n % 16)]

/-- Rust `{:02x}` formatting of a `u8`. -/
def hex2 (b : Nat) : List Nat := [hexDigitChar (b / 16 % 16), hexDigitChar (b % 16)]

/-- One bit step of the reflected CRC-32 (polynomial `0xEDB88320`). -/
def crcBit (c : Nat) : Nat := if c % 2 = 1 then Nat.xor (c / 2) 3988292384 else c / 2

/-- Eight bit steps of the CRC-32 register. -/
def crc8 (c : Nat) : Nat := crcBit (crcBit (crcBit (crcBit (crcBit (crcBit (crcBit (crcBit c)))))))

/-- `crc32fast::Hasher::update` with a single byte. -/
def crcUpd (st b : Nat) : Nat := crc8 (Nat.xor st b)

/-- `crc32fast` initial register value. -/
def crcInit : Nat := 4294967295

/-- `crc32fast::Hasher::finalize`. -/
def crcFin (st : Nat) : Nat := Nat.xor st 4294967295

/-- IEEE CRC-32 of a byte sequence, as computed by `crc32fast`. -/
def crc32 (data : List Nat) : Nat := crcFin (data.foldl crcUpd crcInit)

/-- UTF-8 encoding of one Unicode scalar value (Rust `String` bytes). -/
def utf8EncodeChar (c : Nat) : List Nat :=
  if c < 128 then [c]
  else if c < 2048 then [192 + c / 64, 128 + c % 64]
  else if c < 65536 then [224 + c / 4096, 128 + (c / 64) % 64, 128 + c % 64]
  else [240 + c / 262144, 128 + (c / 4096) % 64, 128 + (c / 64) % 64, 128 + c % 64]

/-- UTF-8 bytes of a list of scalar values. -/
def utf8Encode (s : List Nat) : List Nat := (s.map utf8EncodeChar).flatten

/-- `std::str::from_utf8`: strict UTF-8 validation (rejecting overlong forms
and surrogates), yielding the scalar values. -/
def utf8Decode : List Nat → Option (List Nat)
  | [] => some []
  | b :: rest =>
    if b < 128 then (utf8Decode rest).map (fun cs => b :: cs)
    else if b < 194 then none
    else if b < 224 then
      match rest with
      | [] => none
      | b1 :: r =>
        if 128 ≤ b1 ∧ b1 < 192 then
          (utf8Decode r).map (fun cs => ((b - 192) * 64 + (b1 - 128)) :: cs)
        else none
    else if b < 240 then
      match rest with
      | [] => none
      | b1 :: rest1 =>
        match rest1 with
        | [] => none
        | b2 :: r =>
          if (128 ≤ b1 ∧ b1 < 192) ∧ (128 ≤ b2 ∧ b2 < 192)
              ∧ (b ≠ 224 ∨ 160 ≤ b1) ∧ (b ≠ 237 ∨ b1 < 160) then
            (utf8Decode r).map (fun cs => ((b - 224) * 4096 + (b1 - 128) * 64 + (b2 - 128)) :: cs)
          else none
    else if b < 245 then
      match rest with
      | [] => none
      | b1 :: rest1 =>
        match rest1 with
        | [] => none
        | b2 :: rest2 =>
          match rest2 with
          | [] => none
          | b3 :: r =>
            if (128 ≤ b1 ∧ b1 < 192) ∧ (128 ≤ b2 ∧ b2 < 192) ∧ (128 ≤ b3 ∧ b3 < 192)
                ∧ (b ≠ 240 ∨ 144 ≤ b1) ∧ (b ≠ 244 ∨ b1 < 144) then
              (utf8Decode r).map
                (fun cs => ((b - 240) * 262144 + (b1 - 128) * 4096 + (b2 - 128) * 64 + (b3 - 128)) :: cs)
            else none
    else none

/-- `error::YencError` (the pure variants; `Io` cannot arise in the pure model). -/
inductive YencError where
  | invalidHeader : List Nat → YencError
  | invalidData : List Nat → YencError
  | missingField : List Nat → YencError
  | crcMismatch : Nat → Nat → YencError
deriving DecidableEq

deriving instance DecidableEq for Except

/-- `header::YencHeader`. -/
structure YencHeader where
  name : List Nat
  size : Nat
  line_len : Option Nat
  part : Option Nat
  total : Option Nat
deriving DecidableEq

/-- `header::YencPart` (`end` is a Lean keyword, hence `endPos`). -/
structure YencPart where
  begin : Nat
  endPos : Nat
deriving DecidableEq

/-- `YencPart::size`, i.e. `end - begin + 1` on `usize` with the checked
(overflow-panicking) semantics: `none` when the subtraction underflows or
the increment overflows. -/
def YencPart.size? (p : YencPart) : Option Nat :=
  if p.begin ≤ p.endPos ∧ p.endPos - p.begin + 1 < 18446744073709551616 then
    some (p.endPos - p.begin + 1)
  else none

/-- `header::YencTrailer`. -/
structure YencTrailer where
  size : Nat
  part : Option Nat
  pcrc32 : Option Nat
  crc32 : Option Nat
deriving DecidableEq

/-- Builder state for `YencHeader::parse`. -/
structure HdrAcc where
  name : Option (List Nat)
  size : Option Nat
  line_len : Option Nat
  part : Option Nat
  total : Option Nat
deriving DecidableEq

/-- One `key=value` token step of `YencHeader::parse`. -/
def scanHdr (acc : HdrAcc) (tok : List Nat) : HdrAcc :=
  match splitOnceEq tok with
  | none => acc
  | some (k, v) =>
    if k = s2l ("name") then { acc with name := some v }
    else if k = s2l ("size") then { acc with size := parseNat v }
    else if k = s2l ("line") then { acc with line_len := parseNat v }
    else if k = s2l ("part") then { acc with part := parseNat v }
    else if k = s2l ("total") then { acc with total := parseNat v }
    else acc

/-- `YencHeader::parse`. -/
def YencHeader.parse (line : List Nat) : Except YencError YencHeader :=
  if (s2l ("=ybegin ")).isPrefixOf line then
    let acc := List.foldl scanHdr ⟨none, none, none, none, none⟩ (splitWs (line.drop 8))
    match acc.name with
    | none => .error (.missingField (s2l ("name")))
    | some nm =>
      match acc.size with
      | none => .error (.missingField (s2l ("size")))
      | some sz => .ok ⟨nm, sz, acc.line_len, acc.part, acc.total⟩
  else .error (.invalidHeader (s2l ("Header must start with '=ybegin'")))

/-- Builder state for `YencPart::parse`. -/
structure PartAcc where
  begin : Option Nat
  endPos : Option Nat
deriving DecidableEq

/-- One `key=value` token step of `YencPart::parse`. -/
def scanPart (acc : PartAcc) (tok : List Nat) : PartAcc :=
  match splitOnceEq tok with
  | none => acc
  | some (k, v) =>
    if k = s2l ("begin") then { acc with begin := parseNat v }
    else if k = s2l ("end") then { acc with endPos := parseNat v }
    else acc

/-- `YencPart::parse`. -/
def YencPart.parse (line : List Nat) : Except YencError YencPart :=
  if (s2l ("=ypart ")).isPrefixOf line then
    let acc := List.foldl scanPart ⟨none, none⟩ (splitWs (line.drop 7))
    match acc.begin with
    | none => .error (.missingField (s2l ("begin")))
    | some b =>
      match acc.endPos with
      | none => .error (.missingField (s2l ("end")))
      | some e => .ok ⟨b, e⟩
  else .error (.invalidHeader (s2l ("Part line must start with '=ypart'")))

/-- Builder state for `YencTrailer::parse`. -/
structure TrailerAcc where
  size : Option Nat
  part : Option Nat
  pcrc32 : Option Nat
  crc32 : Option Nat
deriving DecidableEq

/-- One `key=value` token step of `YencTrailer::parse`. -/
def scanTrailer (acc : TrailerAcc) (tok : List Nat) : TrailerAcc :=
  match splitOnceEq tok with
  | none => acc
  | some (k, v) =>
    if k = s2l ("size") then { acc with size := parseNat v }
    else if k = s2l ("part") then { acc with part := parseNat v }
    else if k = s2l ("pcrc32") then { acc with pcrc32 := parseHexU32 v }
    else if k = s2l ("crc32") then { acc with crc32 := parseHexU32 v }
    else acc

/-- `YencTrailer::parse`. -/
def YencTrailer.parse (line : List Nat) : Except YencError YencTrailer :=
  if (s2l ("=yend ")).isPrefixOf line then
    let acc := List.foldl scanTrailer ⟨none, none, none, none⟩ (splitWs (line.drop 6))
    match acc.size with
    | none => .error (.missingField (s2l ("size")))
    | some sz => .ok ⟨sz, acc.part, acc.pcrc32, acc.crc32⟩
  else .error (.invalidHeader (s2l ("Trailer must start with '=yend'")))

/-- `encode::MultiPartInfo`. -/
structure MultiPartInfo where
  part : Nat
  total : Nat
  begin : Nat
  endPos : Nat
  full_size : Nat
  full_crc : Option Nat
deriving DecidableEq

/-- `MultiPartInfo::expected_size`, `end - begin + 1` with checked `usize`
semantics (`none` = panic on underflow/overflow). -/
def MultiPartInfo.expected_size? (i : MultiPartInfo) : Option Nat :=
  if i.begin ≤ i.endPos ∧ i.endPos - i.begin + 1 < 18446744073709551616 then
    some (i.endPos - i.begin + 1)
  else none

/-- Result of an operation that can succeed, fail with a `YencError`, or
panic (checked arithmetic overflow / slice-index panic). -/
inductive POut (α : Type) where
  | ok : α → POut α
  | err : YencError → POut α
  | panicked : POut α
deriving DecidableEq

/-- The body-encoding loop of `Encoder::encode`/`encode_part`: transform each
byte, append the (possibly escaped) output, and terminate the line whenever
the running column count reaches the configured line length. -/
def encBodyAux (L : Nat) : List Nat → Nat → List Nat
  | [], col => if 0 < col then [10] else []
  | b :: rest, col =>
    let chunk := chunkOf b
    let col2 := col + chunk.length
    if L ≤ col2 then chunk ++ 10 :: encBodyAux L rest 0
    else chunk ++ encBodyAux L rest col2

/-- The begin line written by `Encoder::encode` (single-part), without the
terminating newline; `fb` is the UTF-8 byte sequence of the filename. -/
def headerLine (L size : Nat) (fb : List Nat) : List Nat :=
  s2l ("=ybegin line=") ++ natDec L ++ s2l (" size=") ++ natDec size ++ s2l (" name=") ++ fb

/-- The end line written by `Encoder::encode`, without the newline. -/
def endLineSingle (size : Nat) (crc : Option Nat) : List Nat :=
  match crc with
  | some c => s2l ("=yend size=") ++ natDec size ++ s2l (" crc32=") ++ hex8 c
  | none => s2l ("=yend size=") ++ natDec size

/-- `Encoder::encode`: the full byte stream written to the output writer.
`L` is the configured line length and `crcb` the CRC toggle. -/
def encodeStream (L : Nat) (crcb : Bool) (fname : List Nat) (data : List Nat) : List Nat :=
  headerLine L data.length (utf8Encode fname) ++ [10]
    ++ encBodyAux L data 0
    ++ endLineSingle data.length (if crcb then some (crc32 data) else none) ++ [10]

/-- `Encoder::encode_part`: threads the writer state `w`; on the size-mismatch
error the writer is returned untouched (the check precedes every write), and
an underflowing `expected_size` panics before anything is written. -/
def encodePart (L : Nat) (crcb : Bool) (data fname : List Nat) (info : MultiPartInfo)
    (w : List Nat) : POut Nat × List Nat :=
  match info.expected_size? with
  | none => (.panicked, w)
  | some expected =>
    if data.length ≠ expected then
      (.err (.invalidData (s2l ("Part size mismatch: expected ") ++ natDec expected
        ++ s2l (" bytes (from begin=") ++ natDec info.begin
        ++ s2l (" end=") ++ natDec info.endPos
        ++ s2l ("), but got ") ++ natDec data.length ++ s2l (" bytes"))), w)
    else
      let pcrc : Option Nat := if crcb then some (crc32 data) else none
      let h := s2l ("=ybegin part=") ++ natDec info.part ++ s2l (" total=") ++ natDec info.total
        ++ s2l (" line=") ++ natDec L ++ s2l (" size=") ++ natDec info.full_size
        ++ s2l (" name=") ++ utf8Encode fname ++ [10]
      let pl := s2l ("=ypart begin=") ++ natDec info.begin
        ++ s2l (" end=") ++ natDec info.endPos ++ [10]
      let tr := s2l ("=yend size=") ++ natDec data.length ++ s2l (" part=") ++ natDec info.part
        ++ (match pcrc with | some c => s2l (" pcrc32=") ++ hex8 c | none => [])
        ++ (match info.full_crc with | some c => s2l (" crc32=") ++ hex8 c | none => [])
        ++ [10]
      (.ok data.length, w ++ h ++ pl ++ encBodyAux L data 0 ++ tr)

/-- Result quadruple of `Decoder::decode` with the decoded bytes in place of
the writer/count pair. -/
abbrev DRes := YencHeader × Option YencPart × Option YencTrailer × List Nat

/-- Part-size-mismatch message of `Decoder::decode`. -/
def partSizeMsg (trailerSize expected : Nat) : List Nat :=
  s2l ("Part size mismatch: trailer says ") ++ natDec trailerSize
    ++ s2l (", but part range implies ") ++ natDec expected

/-- Rust `{:?}` rendering of an `Option<usize>`. -/
def optNatDbg : Option Nat → List Nat
  | some n => s2l ("Some(") ++ natDec n ++ s2l (")")
  | none => s2l ("None")

/-- Part-number-mismatch message of `Decoder::decode`. -/
def partNumMsg (headerPart : Nat) (trailerPart : Option Nat) : List Nat :=
  s2l ("Part number mismatch: header says ") ++ natDec headerPart
    ++ s2l (", trailer says ") ++ optNatDbg trailerPart

/-- The CRC comparison at the end of `Decoder::decode`: compare the computed
checksum against `pcrc32` when a part record exists, else against `crc32`;
a missing field is accepted. -/
def crcFinish (hdr : YencHeader) (pinfo : Option YencPart) (cst : Option Nat)
    (out : List Nat) (trailer : YencTrailer) : POut DRes :=
  match cst with
  | none => .ok (hdr, pinfo, some trailer, out)
  | some st =>
    let computed := crcFin st
    let expected? := if pinfo.isSome then trailer.pcrc32 else trailer.crc32
    match expected? with
    | some e =>
      if computed ≠ e then .err (.crcMismatch e computed)
      else .ok (hdr, pinfo, some trailer, out)
    | none => .ok (hdr, pinfo, some trailer, out)

/-- The trailer-validation block of `Decoder::decode`: part-size check,
part-number check, then CRC check.  `cst` is the CRC register (present iff
validation is enabled). -/
def finishTrailer (hdr : YencHeader) (pinfo : Option YencPart) (cst : Option Nat)
    (out : List Nat) (trailer : YencTrailer) : POut DRes :=
  match pinfo with
  | some p =>
    match p.size? with
    | none => .panicked
    | some expected =>
      if trailer.size ≠ expected then .err (.invalidData (partSizeMsg trailer.size expected))
      else
        match hdr.part with
        | some hp =>
          if trailer.part ≠ some hp then .err (.invalidData (partNumMsg hp trailer.part))
          else crcFinish hdr pinfo cst out trailer
        | none => crcFinish hdr pinfo cst out trailer
  | none => crcFinish hdr pinfo cst out trailer

/-- The per-line byte loop of `Decoder::decode`: a literal `'='` sets the
escape flag; otherwise the byte is decoded (with the escape shift and the
strict-mode validation when the flag is set).  Returns the decoded bytes of
the line and the final escape flag. -/
def decodeChars (strict : Bool) : List Nat → Bool → Except YencError (List Nat × Bool)
  | [], esc => .ok ([], esc)
  | b :: bs, esc =>
    if b = ESCAPE_CHAR then decodeChars strict bs true
    else if esc then
      let d := decode_byte (wsub8 b ESCAPE_OFFSET)
      if strict = true ∧ ESCAPING_CHARS.contains d = false then
        .error (.invalidData (s2l ("Invalid escape sequence: =") ++ hex2 b))
      else (decodeChars strict bs false).map (fun p => (d :: p.1, p.2))
    else (decodeChars strict bs false).map (fun p => (decode_byte b :: p.1, p.2))

/-- The body loop of `Decoder::decode`: process the current line, stop on an
end line, otherwise decode and continue with the next line; at end-of-stream
a dangling escape flag is a fatal error. -/
def bodyLoop (strict : Bool) (hdr : YencHeader) (pinfo : Option YencPart) :
    List (List Nat) → List Nat → Bool → Option Nat → List Nat → POut DRes
  | rest, cur, esc, cst, out =>
    match trim_bytes cur with
    | none => .panicked
    | some t =>
      if (s2l ("=yend ")).isPrefixOf t then
        match utf8Decode t with
        | some s =>
          match YencTrailer.parse s with
          | .error e => .err e
          | .ok trailer => finishTrailer hdr pinfo cst out trailer
        | none => .err (.invalidData (s2l ("Invalid trailer")))
      else
        match decodeChars strict t esc with
        | .error e => .err e
        | .ok (dl, esc2) =>
          let out2 := out ++ dl
          let cst2 := match cst with
            | some st => some (List.foldl crcUpd st dl)
            | none => none
          match rest with
          | [] =>
            if esc2 then .err (.invalidData (s2l ("File ended with incomplete escape sequence")))
            else .ok (hdr, pinfo, none, out2)
          | nl :: rs => bodyLoop strict hdr pinfo rs nl esc2 cst2 out2

/-- The header-seeking loop of `Decoder::decode`: skip lines until one starts
with `"=ybegin "`; end-of-stream first is the no-header error. -/
def findHeaderLoop : List (List Nat) → POut (YencHeader × List (List Nat))
  | [] => .err (.invalidHeader (s2l ("No header found")))
  | l :: ls =>
    match trim_bytes l with
    | none => .panicked
    | some t =>
      if (s2l ("=ybegin ")).isPrefixOf t then
        match utf8Decode t with
        | some s =>
          match YencHeader.parse s with
          | .error e => .err e
          | .ok h => .ok (h, ls)
        | none => .err (.invalidHeader (s2l ("Invalid header")))
      else findHeaderLoop ls

/-- `Decoder::decode`: find the header, read the optional part line, check
multi-part consistency, then run the body loop. -/
def decodeModel (strict validate : Bool) (input : List Nat) : POut DRes :=
  match findHeaderLoop (readLines input) with
  | .err e => .err e
  | .panicked => .panicked
  | .ok (hdr, rest) =>
    match rest with
    | [] => .err (.invalidData (s2l ("No data found")))
    | l :: ls2 =>
      match trim_bytes l with
      | none => .panicked
      | some t =>
        if (s2l ("=ypart ")).isPrefixOf t then
          match utf8Decode t with
          | none => .err (.invalidData (s2l ("Invalid part line")))
          | some s =>
            match YencPart.parse s with
            | .error e => .err e
            | .ok p =>
              match ls2 with
              | [] => .err (.invalidData (s2l ("No data found after part line")))
              | l2 :: ls3 =>
                bodyLoop strict hdr (some p) ls3 l2 false
                  (if validate then some crcInit else none) []
        else
          if hdr.part.isSome then
            .err (.invalidData (s2l ("Header indicates multi-part but no =ypart line found")))
          else
            bodyLoop strict hdr none ls2 l false
              (if validate then some crcInit else none) []

/-- Flat escaped encoding of a byte sequence (the body with no line breaks). -/
def flatEsc : List Nat → List Nat
  | [] => []
  | b :: rest => chunkOf b ++ flatEsc rest

/-- The body lines (without terminating newlines) that `encBodyAux` emits,
carrying the column count and the current partial line. -/
def encBodyLines (L : Nat) : List Nat → Nat → List Nat → List (List Nat)
  | [], col, cur => if 0 < col then [cur] else []
  | b :: rest, col, cur =>
    let chunk := chunkOf b
    let col2 := col + chunk.length
    if L ≤ col2 then (cur ++ chunk) :: encBodyLines L rest 0 []
    else encBodyLines L rest col2 (cur ++ chunk)

/-- Join lines with a trailing newline on each. -/
def joinNl (ls : List (List Nat)) : List Nat := (ls.map (fun l => l ++ [10])).flatten

/-- The escape flag after the decoder's byte loop processes one (trimmed)
line: a trailing `'='` leaves the flag set, any other trailing byte clears
it, and an empty line keeps the incoming state. -/
def escLine (esc : Bool) (l : List Nat) : Bool := l.foldl (fun _ c => c == 61) esc

/-! ## List and string toolkit lemmas -/

theorem isPrefixOf_append_self (p r : List Nat) : p.isPrefixOf (p ++ r) = true := by
  induction p with
  | nil => simp [List.isPrefixOf]
  | cons a t ih => simp [List.isPrefixOf, ih]

theorem splitOnceEq_append (k v : List Nat) (hk : (61 : Nat) ∉ k) :
    splitOnceEq (k ++ 61 :: v) = some (k, v) := by
  induction k with
  | nil => simp [splitOnceEq]
  | cons c cs ih =>
    have hc : c ≠ 61 := fun h => hk (by simp [h])
    have hcs : (61 : Nat) ∉ cs := fun h => hk (List.mem_cons_of_mem _ h)
    simp [splitOnceEq, hc, ih hcs]

theorem splitOnceEq_eq_none (t : List Nat) (ht : (61 : Nat) ∉ t) : splitOnceEq t = none := by
  induction t with
  | nil => rfl
  | cons c cs ih =>
    have hc : c ≠ 61 := fun h => ht (by simp [h])
    have hcs : (61 : Nat) ∉ cs := fun h => ht (List.mem_cons_of_mem _ h)
    simp [splitOnceEq, hc, ih hcs]

theorem natDecAux_digits : ∀ fuel n, ∀ c ∈ natDecAux fuel n, 48 ≤ c ∧ c ≤ 57 := by
  intro fuel
  induction fuel with
  | zero => intro n c hc; simp [natDecAux] at hc
  | succ fuel ih =>
    intro n c hc
    rw [natDecAux] at hc
    by_cases hn : n < 10
    · rw [if_pos hn] at hc
      simp at hc
      omega
    · rw [if_neg hn] at hc
      rcases List.mem_append.mp hc with h | h
      · exact ih (n / 10) c h
      · simp at h; omega

theorem natDec_digits (n : Nat) : ∀ c ∈ natDec n, 48 ≤ c ∧ c ≤ 57 :=
  natDecAux_digits (n + 1) n

theorem natDec_ne_nil (n : Nat) : natDec n ≠ [] := by
  unfold natDec natDecAux
  split
  · simp
  · simp

theorem nat_lt_pow10 (n : Nat) : n < 10 ^ (n + 1) := by
  calc n < 2 ^ n := Nat.lt_two_pow n
    _ ≤ 10 ^ n := Nat.pow_le_pow_left (by omega) n
    _ ≤ 10 ^ (n + 1) := Nat.pow_le_pow_right (by omega) (by omega)

theorem natDecAux_foldl : ∀ fuel n, n < 10 ^ fuel →
    ∀ a : Nat, (natDecAux fuel n).foldl (fun x c => x * 10 + (c - 48)) a
      = a * 10 ^ (natDecAux fuel n).length + n := by
  intro fuel
  induction fuel with
  | zero =>
    intro n hn a
    interval_cases n
    simp [natDecAux]
  | succ fuel ih =>
    intro n hn a
    by_cases h10 : n < 10
    · rw [natDecAux, if_pos h10]
      simp
    · rw [natDecAux, if_neg h10]
      have hdiv : n / 10 < 10 ^ fuel := by
        rw [Nat.div_lt_iff_lt_mul (by omega)]
        calc n < 10 ^ (fuel + 1) := hn
          _ = 10 ^ fuel * 10 := by ring
      rw [List.foldl_append, ih (n / 10) hdiv a]
      simp [List.length_append, pow_succ]
      ring_nf
      omega

theorem natDec_foldl (n : Nat) :
    ∀ a : Nat, (natDec n).foldl (fun x c => x * 10 + (c - 48)) a
      = a * 10 ^ (natDec n).length + n :=
  natDecAux_foldl (n + 1) n (nat_lt_pow10 n)

theorem digitsVal?_natDec (n : Nat) (h : n < 18446744073709551616) :
    digitsVal? (natDec n) = some n := by
  have hall : (natDec n).all isDigitB = true := by
    rw [List.all_eq_true]
    intro c hc
    have := natDec_digits n c hc
    simp [isDigitB]; omega
  have hfold := natDec_foldl n 0
  simp only [Nat.zero_mul, Nat.zero_add] at hfold
  unfold digitsVal?
  simp only [natDec_ne_nil n, ne_eq, not_false_eq_true, hall, and_self, if_true, hfold]
  simp [h]

theorem parseNat_eq_digitsVal? (c : Nat) (t : List Nat) (hc : c ≠ 43) :
    parseNat (c :: t) = digitsVal? (c :: t) := by
  unfold parseNat
  split
  · rename_i rest heq
    injection heq with h1 _
    exact absurd h1 hc
  · rfl

theorem parseNat_natDec (n : Nat) (h : n < 18446744073709551616) :
    parseNat (natDec n) = some n := by
  rcases hl : natDec n with _ | ⟨c, t⟩
  · exact absurd hl (natDec_ne_nil n)
  · have hc : 48 ≤ c ∧ c ≤ 57 := natDec_digits n c (by rw [hl]; exact List.mem_cons_self _ _)
    rw [parseNat_eq_digitsVal? c t (by omega), ← hl, digitsVal?_natDec n h]

theorem hexCharFacts : ∀ d < 16, isHexDigitB (hexDigitChar d) = true
    ∧ hexVal (hexDigitChar d) = d ∧ hexDigitChar d < 128 ∧ isWsB (hexDigitChar d) = false
    ∧ isRustWs (hexDigitChar d) = false ∧ hexDigitChar d ≠ 10 ∧ hexDigitChar d ≠ 43
    ∧ hexDigitChar d ≠ 61 := by decide

theorem hexDigitChar_props (d : Nat) (hd : d < 16) : isHexDigitB (hexDigitChar d) = true
    ∧ hexDigitChar d < 128 ∧ isWsB (hexDigitChar d) = false
    ∧ isRustWs (hexDigitChar d) = false ∧ hexDigitChar d ≠ 10 ∧ hexDigitChar d ≠ 61 := by
  have := hexCharFacts d hd
  tauto

theorem hex8_all_facts (c : Nat) : ∀ x ∈ hex8 c, isHexDigitB x = true ∧ x < 128
    ∧ isWsB x = false ∧ isRustWs x = false ∧ x ≠ 10 ∧ x ≠ 61 := by
  intro x hx
  simp only [hex8, List.mem_cons, List.not_mem_nil, or_false] at hx
  rcases hx with h | h | h | h | h | h | h | h <;>
    · subst h
      exact hexDigitChar_props _ (Nat.mod_lt _ (by omega))

theorem hexDigitsVal?_hex8 (c : Nat) (hc : c < 4294967296) :
    hexDigitsVal? (hex8 c) = some c := by
  have hall : (hex8 c).all isHexDigitB = true := by
    rw [List.all_eq_true]
    intro x hx
    exact (hex8_all_facts c x hx).1
  have hne : hex8 c ≠ [] := by simp [hex8]
  unfold hexDigitsVal?
  simp only [hne, ne_eq, not_false_eq_true, hall, and_self, if_true]
  have e7 := (hexCharFacts (c / 268435456 % 16) (Nat.mod_lt _ (by omega))).2.1
  have e6 := (hexCharFacts (c / 16777216 % 16) (Nat.mod_lt _ (by omega))).2.1
  have e5 := (hexCharFacts (c / 1048576 % 16) (Nat.mod_lt _ (by omega))).2.1
  have e4 := (hexCharFacts (c / 65536 % 16) (Nat.mod_lt _ (by omega))).2.1
  have e3 := (hexCharFacts (c / 4096 % 16) (Nat.mod_lt _ (by omega))).2.1
  have e2 := (hexCharFacts (c / 256 % 16) (Nat.mod_lt _ (by omega))).2.1
  have e1 := (hexCharFacts (c / 16 % 16) (Nat.mod_lt _ (by omega))).2.1
  have e0 := (hexCharFacts (c % 16) (Nat.mod_lt _ (by omega))).2.1
  simp only [hex8, List.foldl_cons, List.foldl_nil, Nat.zero_mul, Nat.zero_add,
    e7, e6, e5, e4, e3, e2, e1, e0]
  have hv : ((((((((c / 268435456 % 16) * 16 + c / 16777216 % 16) * 16 + c / 1048576 % 16) * 16
      + c / 65536 % 16) * 16 + c / 4096 % 16) * 16 + c / 256 % 16) * 16 + c / 16 % 16) * 16
      + c % 16) = c := by omega
  rw [hv]
  simp [hc]

theorem parseHexU32_hex8 (c : Nat) (hc : c < 4294967296) : parseHexU32 (hex8 c) = some c := by
  have hc7 := (hexCharFacts (c / 268435456 % 16) (Nat.mod_lt _ (by omega))).2.2.2.2.2.2.1
  unfold parseHexU32
  split
  · rename_i rest heq
    rw [hex8] at heq
    injection heq with h1 _
    exact absurd h1 hc7
  · exact hexDigitsVal?_hex8 c hc

theorem crcBit_lt (c : Nat) (h : c < 4294967296) : crcBit c < 4294967296 := by
  unfold crcBit
  split
  · have h1 : c / 2 < 4294967296 := by omega
    have h2 : (3988292384 : Nat) < 4294967296 := by omega
    calc Nat.xor (c / 2) 3988292384 < 2 ^ 32 := Nat.xor_lt_two_pow (by omega) (by omega)
      _ = 4294967296 := by norm_num
  · omega

theorem crc8_lt (c : Nat) (h : c < 4294967296) : crc8 c < 4294967296 := by
  unfold crc8
  exact crcBit_lt _ (crcBit_lt _ (crcBit_lt _ (crcBit_lt _ (crcBit_lt _ (crcBit_lt _
    (crcBit_lt _ (crcBit_lt _ h)))))))

theorem crcUpd_lt (st b : Nat) (hst : st < 4294967296) (hb : b < 256) :
    crcUpd st b < 4294967296 := by
  unfold crcUpd
  apply crc8_lt
  calc Nat.xor st b < 2 ^ 32 := Nat.xor_lt_two_pow (by omega) (by omega)
    _ = 4294967296 := by norm_num

theorem crcFold_lt (data : List Nat) : ∀ st, st < 4294967296 → (∀ b ∈ data, b < 256) →
    data.foldl crcUpd st < 4294967296 := by
  induction data with
  | nil => intro st h _; exact h
  | cons b bs ih =>
    intro st hst hall
    simp only [List.foldl_cons]
    exact ih _ (crcUpd_lt st b hst (hall b (by simp))) (fun x hx => hall x (by simp [hx]))

theorem crc32_lt (data : List Nat) (h : ∀ b ∈ data, b < 256) : crc32 data < 4294967296 := by
  unfold crc32 crcFin
  calc Nat.xor (data.foldl crcUpd crcInit) 4294967295 < 2 ^ 32 := by
        apply Nat.xor_lt_two_pow
        · have := crcFold_lt data crcInit (by unfold crcInit; omega) h
          omega
        · omega
    _ = 4294967296 := by norm_num

/-! ## split_whitespace lemmas -/

theorem splitWsAux_ws_append (y : List Nat) (c : Nat) (hc : isRustWs c = true) :
    ∀ (x acc : List Nat), splitWsAux (x ++ c :: y) acc = splitWsAux x acc ++ splitWsAux y [] := by
  intro x
  induction x with
  | nil =>
    intro acc
    simp only [List.nil_append, splitWsAux, hc, if_true]
    by_cases ha : acc = []
    · simp [ha, splitWsAux]
    · simp [ha, splitWsAux]
  | cons d ds ih =>
    intro acc
    by_cases hd : isRustWs d = true
    · simp only [List.cons_append, splitWsAux, hd, if_true]
      by_cases ha : acc = []
      · simp only [ha, ite_true]
        exact ih []
      · simp only [ha, ite_false, List.cons_append]
        exact congrArg (List.cons acc) (ih [])
    · have hd2 : isRustWs d = false := by simpa using hd
      simp only [List.cons_append, splitWsAux, hd2, Bool.false_eq_true, if_false]
      exact ih (acc ++ [d])

theorem splitWs_ws_append (x y : List Nat) (c : Nat) (hc : isRustWs c = true) :
    splitWs (x ++ c :: y) = splitWs x ++ splitWs y := by
  unfold splitWs
  exact splitWsAux_ws_append y c hc x []

theorem splitWsAux_all_nonws (t : List Nat) (ht : ∀ c ∈ t, isRustWs c = false) :
    ∀ acc, splitWsAux t acc = if acc ++ t = [] then [] else [acc ++ t] := by
  induction t with
  | nil => intro acc; simp [splitWsAux]
  | cons c cs ih =>
    intro acc
    have hc : isRustWs c = false := ht c (by simp)
    simp only [splitWsAux, hc, Bool.false_eq_true, if_false]
    rw [ih (fun x hx => ht x (by simp [hx]))]
    simp

theorem splitWs_single_token (t : List Nat) (hne : t ≠ []) (ht : ∀ c ∈ t, isRustWs c = false) :
    splitWs t = [t] := by
  unfold splitWs
  rw [splitWsAux_all_nonws t ht []]
  simp [hne]

theorem splitWsAux_chars (l : List Nat) :
    ∀ acc t, t ∈ splitWsAux l acc → ∀ c ∈ t, c ∈ acc ∨ c ∈ l := by
  induction l with
  | nil =>
    intro acc t ht c hc
    simp only [splitWsAux] at ht
    split at ht
    · simp at ht
    · simp at ht; subst ht; exact Or.inl hc
  | cons d ds ih =>
    intro acc t ht c hc
    simp only [splitWsAux] at ht
    by_cases hd : isRustWs d = true
    · simp only [hd, if_true] at ht
      split at ht
      · rcases ih [] t ht c hc with h | h
        · simp at h
        · exact Or.inr (by simp [h])
      · rcases List.mem_cons.mp ht with h | h
        · subst h; exact Or.inl hc
        · rcases ih [] t h c hc with h2 | h2
          · simp at h2
          · exact Or.inr (by simp [h2])
    · simp only [hd, if_false] at ht
      rcases ih (acc ++ [d]) t ht c hc with h | h
      · rcases List.mem_append.mp h with h2 | h2
        · exact Or.inl h2
        · simp at h2; exact Or.inr (by simp [h2])
      · exact Or.inr (by simp [h])

theorem splitWs_chars (l t : List Nat) (ht : t ∈ splitWs l) : ∀ c ∈ t, c ∈ l := by
  intro c hc
  rcases splitWsAux_chars l [] t ht c hc with h | h
  · simp at h
  · exact h

/-! ## Trimming lemmas -/

theorem trimEnd_append_ws (l : List Nat) (c : Nat) (hc : isWsB c = true) :
    trimEnd (l ++ [c]) = trimEnd l := by
  unfold trimEnd
  simp [List.reverse_append, List.dropWhile_cons, hc]

theorem trimEnd_concat_nonws (l : List Nat) (c : Nat) (hc : isWsB c = false) :
    trimEnd (l ++ [c]) = l ++ [c] := by
  unfold trimEnd
  simp [List.reverse_append, List.dropWhile_cons, hc]

theorem trimEnd_all_nonws (l : List Nat) (h : ∀ c ∈ l, isWsB c = false) : trimEnd l = l := by
  unfold trimEnd
  rcases hrev : l.reverse with _ | ⟨a, t⟩
  · have : l = [] := by simpa using congrArg List.reverse hrev
    simp [this]
  · have ha : a ∈ l := by
      have : a ∈ l.reverse := by rw [hrev]; simp
      simpa using this
    rw [List.dropWhile_cons, if_neg (by simp [h a ha])]
    rw [← hrev, List.reverse_reverse]

theorem trim_bytes_body (l : List Nat) (hne : l ≠ []) (hnw : ∀ c ∈ l, isWsB c = false) :
    trim_bytes (l ++ [10]) = some l := by
  rcases l with _ | ⟨c, t⟩
  · exact absurd rfl hne
  · have hc : isWsB c = false := hnw c (by simp)
    unfold trim_bytes
    rw [if_neg]
    · rw [List.cons_append, List.dropWhile_cons]
      simp only [hc, Bool.false_eq_true, if_false]
      rw [← List.cons_append, trimEnd_append_ws _ 10 (by decide), trimEnd_all_nonws _ hnw]
    · rintro ⟨-, hall⟩
      rw [List.all_eq_true] at hall
      have := hall c (by simp)
      rw [hc] at this
      exact absurd this (by decide)

theorem trim_bytes_sandwich (a : Nat) (m : List Nat) (b : Nat)
    (ha : isWsB a = false) (hb : isWsB b = false) :
    trim_bytes (a :: (m ++ [b])) = some (a :: (m ++ [b])) := by
  unfold trim_bytes
  rw [if_neg]
  · rw [List.dropWhile_cons]
    simp only [ha, Bool.false_eq_true, if_false]
    rw [show a :: (m ++ [b]) = (a :: m) ++ [b] from rfl, trimEnd_concat_nonws _ b hb]
  · rintro ⟨-, hall⟩
    rw [List.all_eq_true] at hall
    have := hall a (by simp)
    rw [ha] at this
    exact absurd this (by decide)

theorem trim_bytes_sandwich_nl (a : Nat) (m : List Nat) (b : Nat)
    (ha : isWsB a = false) (hb : isWsB b = false) :
    trim_bytes ((a :: (m ++ [b])) ++ [10]) = some (a :: (m ++ [b])) := by
  unfold trim_bytes
  rw [if_neg]
  · rw [List.cons_append, List.dropWhile_cons]
    simp only [ha, Bool.false_eq_true, if_false]
    rw [← List.cons_append, trimEnd_append_ws _ 10 (by decide),
      show a :: (m ++ [b]) = (a :: m) ++ [b] from rfl, trimEnd_concat_nonws _ b hb]
  · rintro ⟨-, hall⟩
    rw [List.all_eq_true] at hall
    have := hall a (by simp)
    rw [ha] at this
    exact absurd this (by decide)

/-! ## Line-reading lemmas -/

theorem readLinesAux_line (l : List Nat) (hl : (10 : Nat) ∉ l) :
    ∀ acc rest, readLinesAux (l ++ 10 :: rest) acc = ((acc ++ l) ++ [10]) :: readLinesAux rest [] := by
  induction l with
  | nil =>
    intro acc rest
    rw [List.nil_append]
    show readLinesAux (10 :: rest) acc = _
    rw [readLinesAux, if_pos rfl]
    simp
  | cons b bs ih =>
    intro acc rest
    have hb : b ≠ 10 := fun h => hl (by simp [h])
    rw [List.cons_append]
    show readLinesAux (b :: (bs ++ 10 :: rest)) acc = _
    rw [readLinesAux, if_neg hb, ih (fun h => hl (List.mem_cons_of_mem _ h)) (acc ++ [b]) rest]
    simp

theorem readLines_line (l rest : List Nat) (hl : (10 : Nat) ∉ l) :
    readLines (l ++ 10 :: rest) = (l ++ [10]) :: readLines rest := by
  unfold readLines
  rw [readLinesAux_line l hl [] rest]
  simp

theorem readLines_joinNl (Ls : List (List Nat)) (hLs : ∀ l ∈ Ls, (10 : Nat) ∉ l)
    (rest : List Nat) :
    readLines (joinNl Ls ++ rest) = Ls.map (fun l => l ++ [10]) ++ readLines rest := by
  induction Ls with
  | nil => simp [joinNl]
  | cons L Lt ih =>
    have h1 : joinNl (L :: Lt) ++ rest = L ++ 10 :: (joinNl Lt ++ rest) := by
      simp [joinNl]
    rw [h1, readLines_line _ _ (hLs L (by simp)), ih (fun l hl => hLs l (by simp [hl]))]
    simp

/-! ## UTF-8 lemmas -/

theorem utf8Decode_cons_ascii (b : Nat) (bs : List Nat) (hb : b < 128) :
    utf8Decode (b :: bs) = (utf8Decode bs).map (fun cs => b :: cs) := by
  conv_lhs => rw [utf8Decode.eq_def]
  simp only [hb, if_true]

theorem utf8Decode_ascii (l : List Nat) (h : ∀ c ∈ l, c < 128) : utf8Decode l = some l := by
  induction l with
  | nil => rfl
  | cons b bs ih =>
    have hb : b < 128 := h b (by simp)
    rw [utf8Decode_cons_ascii b bs hb, ih (fun c hc => h c (by simp [hc]))]
    rfl

theorem utf8Encode_ascii (l : List Nat) (h : ∀ c ∈ l, c < 128) : utf8Encode l = l := by
  unfold utf8Encode
  induction l with
  | nil => rfl
  | cons b bs ih =>
    have hb : b < 128 := h b (by simp)
    simp only [List.map_cons, List.flatten_cons, utf8EncodeChar, hb, if_true]
    rw [ih (fun c hc => h c (by simp [hc]))]
    rfl

/-! ## Chunk lemmas -/

theorem chunk_esc_facts : ∀ b < 256, needs_escape b (encode_byte b) = true →
    isWsB (wadd8 (encode_byte b) 64) = false ∧ wadd8 (encode_byte b) 64 ≠ 121
    ∧ wadd8 (encode_byte b) 64 ≠ 61 ∧ wadd8 (encode_byte b) 64 ≠ 10
    ∧ decode_byte (wsub8 (wadd8 (encode_byte b) 64) 64) = b := by decide

theorem chunk_plain_facts : ∀ b < 256, needs_escape b (encode_byte b) = false →
    isWsB (encode_byte b) = false ∧ encode_byte b ≠ 61 ∧ encode_byte b ≠ 10
    ∧ decode_byte (encode_byte b) = b := by decide

theorem chunkOf_esc (b : Nat) (hes : needs_escape b (encode_byte b) = true) :
    chunkOf b = [61, wadd8 (encode_byte b) 64] := by
  simp [chunkOf, hes, ESCAPE_CHAR, ESCAPE_OFFSET]

theorem chunkOf_plain (b : Nat) (hes : needs_escape b (encode_byte b) = false) :
    chunkOf b = [encode_byte b] := by
  simp [chunkOf, hes]

theorem chunk_all (b : Nat) (hb : b < 256) :
    ∀ c ∈ chunkOf b, isWsB c = false ∧ c ≠ 10 := by
  intro c hc
  by_cases hes : needs_escape b (encode_byte b) = true
  · rw [chunkOf_esc b hes] at hc
    have hf := chunk_esc_facts b hb hes
    simp only [List.mem_cons, List.not_mem_nil, or_false] at hc
    rcases hc with h | h
    · subst h; exact ⟨by decide, by decide⟩
    · subst h; exact ⟨hf.1, hf.2.2.2.1⟩
  · have hes2 : needs_escape b (encode_byte b) = false := by simpa using hes
    rw [chunkOf_plain b hes2] at hc
    have hf := chunk_plain_facts b hb hes2
    simp only [List.mem_cons, List.not_mem_nil, or_false] at hc
    subst hc
    exact ⟨hf.1, hf.2.2.1⟩

theorem flatEsc_append (x y : List Nat) : flatEsc (x ++ y) = flatEsc x ++ flatEsc y := by
  induction x with
  | nil => simp [flatEsc]
  | cons b bs ih => simp [flatEsc, ih]

theorem chunkOf_ne_nil (b : Nat) : chunkOf b ≠ [] := by
  unfold chunkOf
  dsimp only
  split <;> simp

theorem flatEsc_eq_nil_iff (x : List Nat) : flatEsc x = [] ↔ x = [] := by
  cases x with
  | nil => simp [flatEsc]
  | cons b bs => simp [flatEsc, List.append_eq_nil, chunkOf_ne_nil b]

theorem flatEsc_all (D : List Nat) (hD : ∀ b ∈ D, b < 256) :
    ∀ c ∈ flatEsc D, isWsB c = false ∧ c ≠ 10 := by
  induction D with
  | nil => simp [flatEsc]
  | cons b bs ih =>
    intro c hc
    rcases List.mem_append.mp hc with h | h
    · exact chunk_all b (hD b (by simp)) c h
    · exact ih (fun x hx => hD x (by simp [hx])) c h

theorem flatEsc_no_eqy (D : List Nat) (hD : ∀ b ∈ D, b < 256) (hne : D ≠ []) (k : List Nat) :
    (61 :: 121 :: k).isPrefixOf (flatEsc D) = false := by
  rcases D with _ | ⟨b, bs⟩
  · exact absurd rfl hne
  · by_cases hes : needs_escape b (encode_byte b) = true
    · have hp := (chunk_esc_facts b (hD b (by simp)) hes).2.1
      show (61 :: 121 :: k).isPrefixOf (chunkOf b ++ flatEsc bs) = false
      rw [chunkOf_esc b hes]
      simp [List.isPrefixOf, beq_iff_eq]
      intro h
      exact absurd h.symm hp
    · have hes2 : needs_escape b (encode_byte b) = false := by simpa using hes
      have he := (chunk_plain_facts b (hD b (by simp)) hes2).2.1
      show (61 :: 121 :: k).isPrefixOf (chunkOf b ++ flatEsc bs) = false
      rw [chunkOf_plain b hes2]
      simp [List.isPrefixOf, beq_iff_eq]
      intro h
      exact absurd h.symm he

theorem decodeChars_chunk (b : Nat) (hb : b < 256) (rest : List Nat) :
    decodeChars false (chunkOf b ++ rest) false
      = (decodeChars false rest false).map (fun p => (b :: p.1, p.2)) := by
  by_cases hes : needs_escape b (encode_byte b) = true
  · have hf := chunk_esc_facts b hb hes
    rw [chunkOf_esc b hes]
    show decodeChars false (61 :: wadd8 (encode_byte b) 64 :: rest) false = _
    rw [decodeChars, if_pos (show (61 : Nat) = ESCAPE_CHAR from rfl)]
    rw [decodeChars, if_neg (show ¬ (wadd8 (encode_byte b) 64 = ESCAPE_CHAR) from hf.2.2.1),
      if_pos rfl]
    simp only [Bool.false_eq_true, false_and, if_false, ESCAPE_OFFSET]
    rw [hf.2.2.2.2]
  · have hes2 : needs_escape b (encode_byte b) = false := by simpa using hes
    have hf := chunk_plain_facts b hb hes2
    rw [chunkOf_plain b hes2]
    show decodeChars false (encode_byte b :: rest) false = _
    rw [decodeChars, if_neg (show ¬ (encode_byte b = ESCAPE_CHAR) from hf.2.1)]
    simp only [Bool.false_eq_true, if_false]
    rw [hf.2.2.2]

theorem decodeChars_flatEsc (D : List Nat) (hD : ∀ b ∈ D, b < 256) :
    decodeChars false (flatEsc D) false = .ok (D, false) := by
  induction D with
  | nil => rfl
  | cons b bs ih =>
    show decodeChars false (chunkOf b ++ flatEsc bs) false = _
    rw [decodeChars_chunk b (hD b (by simp)) (flatEsc bs),
      ih (fun x hx => hD x (by simp [hx]))]
    rfl

/-! ## Encoder body structure lemmas -/

theorem chunkOf_len (b : Nat) : (chunkOf b).length = 1 ∨ (chunkOf b).length = 2 := by
  unfold chunkOf
  dsimp only
  split
  · right; rfl
  · left; rfl

theorem encBodyAux_eq_joinNl (L : Nat) (data : List Nat) :
    ∀ col cur, cur.length = col →
      cur ++ encBodyAux L data col = joinNl (encBodyLines L data col cur) := by
  induction data with
  | nil =>
    intro col cur hcur
    by_cases hc : 0 < col
    · simp [encBodyAux, encBodyLines, hc, joinNl]
    · have : col = 0 := by omega
      subst this
      have : cur = [] := List.length_eq_zero.mp hcur
      subst this
      simp [encBodyAux, encBodyLines, joinNl]
  | cons b rest ih =>
    intro col cur hcur
    show cur ++ encBodyAux L (b :: rest) col = joinNl (encBodyLines L (b :: rest) col cur)
    rw [encBodyAux, encBodyLines]
    by_cases hw : L ≤ col + (chunkOf b).length
    · rw [if_pos hw, if_pos hw]
      have := ih 0 [] rfl
      rw [List.nil_append] at this
      rw [joinNl, List.map_cons, List.flatten_cons, ← joinNl, ← this]
      simp
    · rw [if_neg hw, if_neg hw]
      have := ih (col + (chunkOf b).length) (cur ++ chunkOf b) (by simp [hcur])
      rw [← this]
      simp

theorem encBodyLines_spec (L : Nat) (data : List Nat) :
    ∀ col cur D0, cur = flatEsc D0 → cur.length = col →
      ∃ Ds : List (List Nat), encBodyLines L data col cur = Ds.map flatEsc
        ∧ Ds.flatten = D0 ++ data ∧ (∀ D ∈ Ds, D ≠ []) := by
  induction data with
  | nil =>
    intro col cur D0 hcur hlen
    by_cases hc : 0 < col
    · refine ⟨[D0], ?_, by simp, ?_⟩
      · simp [encBodyLines, hc, hcur]
      · intro D hD
        simp at hD
        subst hD
        intro h
        subst h
        simp [flatEsc] at hcur
        subst hcur
        simp at hlen
        omega
    · have hcol : col = 0 := by omega
      subst hcol
      have hnil : cur = [] := List.length_eq_zero.mp hlen
      have hD0 : D0 = [] := (flatEsc_eq_nil_iff D0).mp (by rw [← hcur, hnil])
      subst hD0
      exact ⟨[], by simp [encBodyLines], by simp, by simp⟩
  | cons b rest ih =>
    intro col cur D0 hcur hlen
    rw [encBodyLines]
    by_cases hw : L ≤ col + (chunkOf b).length
    · rw [if_pos hw]
      obtain ⟨Ds, h1, h2, h3⟩ := ih 0 [] [] rfl rfl
      refine ⟨(D0 ++ [b]) :: Ds, ?_, ?_, ?_⟩
      · rw [List.map_cons, h1, flatEsc_append, hcur]
        simp [flatEsc]
      · simp [h2]
      · intro D hD
        rcases List.mem_cons.mp hD with h | h
        · subst h; simp
        · exact h3 D h
    · rw [if_neg hw]
      have hcur2 : cur ++ chunkOf b = flatEsc (D0 ++ [b]) := by
        rw [flatEsc_append, hcur]
        simp [flatEsc]
      obtain ⟨Ds, h1, h2, h3⟩ := ih (col + (chunkOf b).length) (cur ++ chunkOf b)
        (D0 ++ [b]) hcur2 (by simp [hlen])
      refine ⟨Ds, h1, ?_, h3⟩
      rw [h2]
      simp

theorem encBodyLines_len (L : Nat) (hL : 1 ≤ L) (data : List Nat) :
    ∀ col cur, cur.length = col → col < L →
      ∀ l ∈ encBodyLines L data col cur, l.length ≤ L + 1 := by
  induction data with
  | nil =>
    intro col cur hcur hcol l hl
    unfold encBodyLines at hl
    split at hl
    · simp at hl
      subst hl
      omega
    · simp at hl
  | cons b rest ih =>
    intro col cur hcur hcol l hl
    rw [encBodyLines] at hl
    rcases chunkOf_len b with hc | hc
    all_goals by_cases hw : L ≤ col + (chunkOf b).length
    all_goals rw [hc] at hw
    · rw [if_pos (by rw [hc]; exact hw)] at hl
      rcases List.mem_cons.mp hl with h | h
      · subst h; simp [hc, hcur]; omega
      · exact ih 0 [] rfl (by omega) l h
    · rw [if_neg (by rw [hc]; exact hw)] at hl
      exact ih (col + (chunkOf b).length) (cur ++ chunkOf b) (by simp [hcur])
        (by rw [hc]; omega) l hl
    · rw [if_pos (by rw [hc]; exact hw)] at hl
      rcases List.mem_cons.mp hl with h | h
      · subst h; simp [hc, hcur]; omega
      · exact ih 0 [] rfl (by omega) l h
    · rw [if_neg (by rw [hc]; exact hw)] at hl
      exact ih (col + (chunkOf b).length) (cur ++ chunkOf b) (by simp [hcur])
        (by rw [hc]; omega) l hl

/-! ## Decoder body loop lemmas -/

theorem flatEsc_ne_nil (D : List Nat) (h : D ≠ []) : flatEsc D ≠ [] :=
  fun hc => h ((flatEsc_eq_nil_iff D).mp hc)

theorem trim_bytes_flatEsc (D : List Nat) (hD : ∀ b ∈ D, b < 256) (hne : D ≠ []) :
    trim_bytes (flatEsc D ++ [10]) = some (flatEsc D) :=
  trim_bytes_body _ (flatEsc_ne_nil D hne) (fun c hc => (flatEsc_all D hD c hc).1)

theorem bodyLoop_chain (hdr : YencHeader) (pinfo : Option YencPart) (tl tlc : List Nat)
    (trailer : YencTrailer)
    (htrim : trim_bytes (tl ++ [10]) = some tl)
    (hpre : (s2l ("=yend ")).isPrefixOf tl = true)
    (hutf : utf8Decode tl = some tlc)
    (hparse : YencTrailer.parse tlc = .ok trailer) :
    ∀ (Ds : List (List Nat)), (∀ D ∈ Ds, (∀ b ∈ D, b < 256) ∧ D ≠ []) →
    ∀ (st : Nat) (out : List Nat),
    bodyLoop false hdr pinfo ((Ds.map fun D => flatEsc D ++ [10]) ++ [tl ++ [10]]).tail
      (((Ds.map fun D => flatEsc D ++ [10]) ++ [tl ++ [10]]).headD [])
      false (some st) out
    = finishTrailer hdr pinfo (some (Ds.flatten.foldl crcUpd st)) (out ++ Ds.flatten) trailer := by
  intro Ds
  induction Ds with
  | nil =>
    intro _ st out
    simp only [List.map_nil, List.nil_append, List.tail_cons, List.headD_cons]
    rw [bodyLoop, htrim]
    simp only [hpre, if_true, hutf, hparse]
    simp
  | cons D Dt ih =>
    intro hDs st out
    have hD := hDs D (by simp)
    have htr := trim_bytes_flatEsc D hD.1 hD.2
    have hnp : (s2l ("=yend ")).isPrefixOf (flatEsc D) = false := by
      rw [show s2l ("=yend ") = 61 :: 121 :: s2l ("end ") from by decide]
      exact flatEsc_no_eqy D hD.1 hD.2 _
    simp only [List.map_cons, List.cons_append, List.tail_cons, List.headD_cons]
    rw [bodyLoop, htr]
    simp only [hnp, Bool.false_eq_true, if_false]
    rw [decodeChars_flatEsc D hD.1]
    rcases Dt with _ | ⟨D2, Dt2⟩
    · simp only [List.map_nil, List.nil_append]
      have := ih (by simp) (List.foldl crcUpd st D) (out ++ D)
      simp only [List.map_nil, List.nil_append, List.tail_cons, List.headD_cons] at this
      rw [this]
      simp
    · simp only [List.map_cons, List.cons_append]
      have := ih (fun x hx => hDs x (by simp [hx])) (List.foldl crcUpd st D) (out ++ D)
      simp only [List.map_cons, List.cons_append, List.tail_cons, List.headD_cons] at this
      rw [this]
      simp [List.foldl_append]

/-! ## Control-line parsing lemmas -/

theorem digit_props (c : Nat) (h1 : 48 ≤ c) (h2 : c ≤ 57) :
    isRustWs c = false ∧ isWsB c = false ∧ c ≠ 10 ∧ c ≠ 61 ∧ c < 128 := by
  interval_cases c <;> decide

theorem natDec_props (n : Nat) : ∀ c ∈ natDec n,
    isRustWs c = false ∧ isWsB c = false ∧ c ≠ 10 ∧ c ≠ 61 ∧ c < 128 := by
  intro c hc
  have := natDec_digits n c hc
  exact digit_props c this.1 this.2

theorem foldl_scanHdr_skip (ts : List (List Nat)) (h : ∀ t ∈ ts, splitOnceEq t = none) :
    ∀ acc, List.foldl scanHdr acc ts = acc := by
  induction ts with
  | nil => intro acc; rfl
  | cons t ts2 ih =>
    intro acc
    rw [List.foldl_cons, show scanHdr acc t = acc from by rw [scanHdr, h t (by simp)],
      ih (fun x hx => h x (by simp [hx]))]

theorem scanHdr_size_any (acc : HdrAcc) (v : List Nat) :
    scanHdr acc (s2l ("size=") ++ v) = { acc with size := parseNat v } := by
  rw [show s2l ("size=") ++ v = s2l ("size") ++ 61 :: v from by
    rw [show s2l ("size=") = s2l ("size") ++ [61] from by decide]; simp]
  rw [scanHdr, splitOnceEq_append _ _ (by decide)]
  dsimp only
  rw [if_neg (by decide), if_pos rfl]

theorem scanHdr_size (acc : HdrAcc) (n : Nat) (hn : n < 18446744073709551616) :
    scanHdr acc (s2l ("size=") ++ natDec n) = { acc with size := some n } := by
  rw [scanHdr_size_any, parseNat_natDec n hn]

theorem scanHdr_name (acc : HdrAcc) (nm : List Nat) :
    scanHdr acc (s2l ("name=") ++ nm) = { acc with name := some nm } := by
  rw [show s2l ("name=") ++ nm = s2l ("name") ++ 61 :: nm from by
    rw [show s2l ("name=") = s2l ("name") ++ [61] from by decide]; simp]
  rw [scanHdr, splitOnceEq_append _ _ (by decide)]
  dsimp only
  rw [if_pos rfl]

theorem YencHeader_parse_line (n : Nat) (hn : n < 18446744073709551616)
    (nm extra : List Nat)
    (hnm : ∀ c ∈ nm, isRustWs c = false)
    (hextra : extra = [] ∨ ∃ b : List Nat, extra = 32 :: b ∧ (61 : Nat) ∉ b) :
    YencHeader.parse (s2l ("=ybegin line=128 size=") ++ natDec n ++ s2l (" name=") ++ nm ++ extra)
      = .ok ⟨nm, n, some 128, none, none⟩ := by
  have hline : s2l ("=ybegin line=128 size=") ++ natDec n ++ s2l (" name=") ++ nm ++ extra
      = s2l ("=ybegin ") ++ (s2l ("line=128 size=") ++ natDec n ++ s2l (" name=") ++ nm ++ extra) := by
    rw [show s2l ("=ybegin line=128 size=") = s2l ("=ybegin ") ++ s2l ("line=128 size=") from by
      decide]
    simp [List.append_assoc]
  rw [hline, YencHeader.parse, if_pos (isPrefixOf_append_self _ _)]
  rw [show (s2l ("=ybegin ") ++ (s2l ("line=128 size=") ++ natDec n ++ s2l (" name=") ++ nm
      ++ extra)).drop 8
    = s2l ("line=128 size=") ++ natDec n ++ s2l (" name=") ++ nm ++ extra from by
      rw [show (8 : Nat) = (s2l ("=ybegin ")).length from by decide, List.drop_left]]
  have hT : s2l ("line=128 size=") ++ natDec n ++ s2l (" name=") ++ nm ++ extra
      = s2l ("line=128") ++ 32 :: ((s2l ("size=") ++ natDec n)
          ++ 32 :: (s2l ("name=") ++ (nm ++ extra))) := by
    rw [show s2l ("line=128 size=") = s2l ("line=128") ++ 32 :: s2l ("size=") from by decide,
      show s2l (" name=") = 32 :: s2l ("name=") from by decide]
    simp [List.append_assoc]
  rw [hT, splitWs_ws_append _ _ 32 (by decide), splitWs_ws_append _ _ 32 (by decide)]
  rw [splitWs_single_token (s2l ("line=128")) (by decide) (by decide)]
  rw [splitWs_single_token (s2l ("size=") ++ natDec n) (by simp [s2l])
    (by
      have hlit : ∀ c ∈ s2l ("size="), isRustWs c = false := by decide
      intro c hc
      rcases List.mem_append.mp hc with h | h
      · exact hlit c h
      · exact (natDec_props n c h).1)]
  have hnm2 : ∀ c ∈ s2l ("name=") ++ nm, isRustWs c = false := by
    have hlit : ∀ c ∈ s2l ("name="), isRustWs c = false := by decide
    intro c hc
    rcases List.mem_append.mp hc with h | h
    · exact hlit c h
    · exact hnm c h
  have hfold3 : List.foldl scanHdr (⟨none, none, none, none, none⟩ : HdrAcc)
      [s2l ("line=128"), s2l ("size=") ++ natDec n, s2l ("name=") ++ nm]
      = ⟨some nm, some n, some 128, none, none⟩ := by
    rw [List.foldl_cons, show scanHdr ⟨none, none, none, none, none⟩ (s2l ("line=128"))
        = (⟨none, none, some 128, none, none⟩ : HdrAcc) from by decide]
    rw [List.foldl_cons, scanHdr_size _ n hn]
    rw [List.foldl_cons, scanHdr_name]
    rfl
  rcases hextra with he | ⟨b, he, hb⟩
  · subst he
    rw [List.append_nil]
    rw [splitWs_single_token (s2l ("name=") ++ nm) (by simp [s2l]) hnm2]
    rw [show ([s2l ("line=128")] ++ ([s2l ("size=") ++ natDec n] ++ [s2l ("name=") ++ nm]))
      = [s2l ("line=128"), s2l ("size=") ++ natDec n, s2l ("name=") ++ nm] from rfl]
    rw [hfold3]
  · subst he
    rw [show s2l ("name=") ++ (nm ++ 32 :: b) = (s2l ("name=") ++ nm) ++ 32 :: b from by
      simp [List.append_assoc]]
    rw [splitWs_ws_append _ _ 32 (by decide)]
    rw [splitWs_single_token (s2l ("name=") ++ nm) (by simp [s2l]) hnm2]
    rw [show ([s2l ("line=128")] ++ ([s2l ("size=") ++ natDec n]
        ++ ([s2l ("name=") ++ nm] ++ splitWs b)))
      = [s2l ("line=128"), s2l ("size=") ++ natDec n, s2l ("name=") ++ nm] ++ splitWs b from by
        simp]
    rw [List.foldl_append, hfold3]
    rw [foldl_scanHdr_skip (splitWs b)
      (fun t ht => splitOnceEq_eq_none t (fun hmem => hb (splitWs_chars b t ht 61 hmem)))]

theorem scanTrailer_size_any (acc : TrailerAcc) (v : List Nat) :
    scanTrailer acc (s2l ("size=") ++ v) = { acc with size := parseNat v } := by
  rw [show s2l ("size=") ++ v = s2l ("size") ++ 61 :: v from by
    rw [show s2l ("size=") = s2l ("size") ++ [61] from by decide]; simp]
  rw [scanTrailer, splitOnceEq_append _ _ (by decide)]
  dsimp only
  rw [if_pos rfl]

theorem scanTrailer_size (acc : TrailerAcc) (n : Nat) (hn : n < 18446744073709551616) :
    scanTrailer acc (s2l ("size=") ++ natDec n) = { acc with size := some n } := by
  rw [scanTrailer_size_any, parseNat_natDec n hn]

theorem scanTrailer_crc (acc : TrailerAcc) (c : Nat) (hc : c < 4294967296) :
    scanTrailer acc (s2l ("crc32=") ++ hex8 c) = { acc with crc32 := some c } := by
  rw [show s2l ("crc32=") ++ hex8 c = s2l ("crc32") ++ 61 :: hex8 c from by
    rw [show s2l ("crc32=") = s2l ("crc32") ++ [61] from by decide]; simp]
  rw [scanTrailer, splitOnceEq_append _ _ (by decide)]
  dsimp only
  rw [if_neg (by decide), if_neg (by decide), if_neg (by decide), if_pos rfl,
    parseHexU32_hex8 c hc]

theorem YencTrailer_parse_line (n c : Nat) (hn : n < 18446744073709551616)
    (hc : c < 4294967296) :
    YencTrailer.parse (s2l ("=yend size=") ++ natDec n ++ s2l (" crc32=") ++ hex8 c)
      = .ok ⟨n, none, none, some c⟩ := by
  have hline : s2l ("=yend size=") ++ natDec n ++ s2l (" crc32=") ++ hex8 c
      = s2l ("=yend ") ++ (s2l ("size=") ++ natDec n ++ s2l (" crc32=") ++ hex8 c) := by
    rw [show s2l ("=yend size=") = s2l ("=yend ") ++ s2l ("size=") from by decide]
    simp [List.append_assoc]
  rw [hline, YencTrailer.parse, if_pos (isPrefixOf_append_self _ _)]
  rw [show (s2l ("=yend ") ++ (s2l ("size=") ++ natDec n ++ s2l (" crc32=") ++ hex8 c)).drop 6
    = s2l ("size=") ++ natDec n ++ s2l (" crc32=") ++ hex8 c from by
      rw [show (6 : Nat) = (s2l ("=yend ")).length from by decide, List.drop_left]]
  have hT : s2l ("size=") ++ natDec n ++ s2l (" crc32=") ++ hex8 c
      = (s2l ("size=") ++ natDec n) ++ 32 :: (s2l ("crc32=") ++ hex8 c) := by
    rw [show s2l (" crc32=") = 32 :: s2l ("crc32=") from by decide]
    simp [List.append_assoc]
  rw [hT, splitWs_ws_append _ _ 32 (by decide)]
  rw [splitWs_single_token (s2l ("size=") ++ natDec n) (by simp [s2l])
    (by
      have hlit : ∀ x ∈ s2l ("size="), isRustWs x = false := by decide
      intro x hx
      rcases List.mem_append.mp hx with h | h
      · exact hlit x h
      · exact (natDec_props n x h).1)]
  rw [splitWs_single_token (s2l ("crc32=") ++ hex8 c) (by simp [s2l])
    (by
      have hlit : ∀ x ∈ s2l ("crc32="), isRustWs x = false := by decide
      intro x hx
      rcases List.mem_append.mp hx with h | h
      · exact hlit x h
      · exact (hex8_all_facts c x h).2.2.2.1)]
  rw [show ([s2l ("size=") ++ natDec n] ++ [s2l ("crc32=") ++ hex8 c])
    = [s2l ("size=") ++ natDec n, s2l ("crc32=") ++ hex8 c] from rfl]
  rw [List.foldl_cons, scanTrailer_size _ n hn, List.foldl_cons, scanTrailer_crc _ c hc]
  rfl

/-! ## Emitted control-line facts -/

theorem headerLine128 (n : Nat) (fb : List Nat) :
    headerLine 128 n fb = s2l ("=ybegin line=128 size=") ++ natDec n ++ s2l (" name=") ++ fb := by
  unfold headerLine
  rw [show (s2l ("=ybegin line=") ++ natDec 128) ++ s2l (" size=")
    = s2l ("=ybegin line=128 size=") from by decide]

theorem headerLine_no10 (n : Nat) (fb : List Nat) (hfb : (10 : Nat) ∉ fb) :
    (10 : Nat) ∉ headerLine 128 n fb := by
  rw [headerLine128]
  intro h
  simp only [List.mem_append] at h
  rcases h with ((h | h) | h) | h
  · revert h; decide
  · exact (natDec_props n 10 h).2.2.1 rfl
  · revert h; decide
  · exact hfb h

theorem headerLine_ascii (n : Nat) (fb : List Nat) (hfb : ∀ c ∈ fb, c < 128) :
    ∀ x ∈ headerLine 128 n fb, x < 128 := by
  rw [headerLine128]
  intro x h
  simp only [List.mem_append] at h
  rcases h with ((h | h) | h) | h
  · revert h; revert x; decide
  · exact (natDec_props n x h).2.2.2.2
  · revert h; revert x; decide
  · exact hfb x h

theorem headerLine_pre (n : Nat) (fb : List Nat) :
    (s2l ("=ybegin ")).isPrefixOf (headerLine 128 n fb) = true := by
  rw [headerLine128,
    show s2l ("=ybegin line=128 size=") = s2l ("=ybegin ") ++ s2l ("line=128 size=") from by
      decide]
  simp only [List.append_assoc]
  exact isPrefixOf_append_self _ _

theorem headerLine_trim (n : Nat) (m : List Nat) (b : Nat) (hb : isWsB b = false) :
    trim_bytes (headerLine 128 n (m ++ [b]) ++ [10]) = some (headerLine 128 n (m ++ [b])) := by
  rw [headerLine128]
  have hsh : s2l ("=ybegin line=128 size=") ++ natDec n ++ s2l (" name=") ++ (m ++ [b])
      = 61 :: ((s2l ("ybegin line=128 size=") ++ natDec n ++ s2l (" name=") ++ m) ++ [b]) := by
    rw [show s2l ("=ybegin line=128 size=") = 61 :: s2l ("ybegin line=128 size=") from by decide]
    simp [List.append_assoc]
  rw [hsh]
  exact trim_bytes_sandwich_nl 61 _ b (by decide) hb

theorem tline_no10 (n c : Nat) :
    (10 : Nat) ∉ s2l ("=yend size=") ++ natDec n ++ s2l (" crc32=") ++ hex8 c := by
  intro h
  simp only [List.mem_append] at h
  rcases h with ((h | h) | h) | h
  · revert h; decide
  · exact (natDec_props n 10 h).2.2.1 rfl
  · revert h; decide
  · exact (hex8_all_facts c 10 h).2.2.2.2.1 rfl

theorem tline_ascii (n c : Nat) :
    ∀ x ∈ s2l ("=yend size=") ++ natDec n ++ s2l (" crc32=") ++ hex8 c, x < 128 := by
  intro x h
  simp only [List.mem_append] at h
  rcases h with ((h | h) | h) | h
  · revert h; revert x; decide
  · exact (natDec_props n x h).2.2.2.2
  · revert h; revert x; decide
  · exact (hex8_all_facts c x h).2.1

theorem tline_pre (n c : Nat) :
    (s2l ("=yend ")).isPrefixOf
      (s2l ("=yend size=") ++ natDec n ++ s2l (" crc32=") ++ hex8 c) = true := by
  rw [show s2l ("=yend size=") = s2l ("=yend ") ++ s2l ("size=") from by decide]
  simp only [List.append_assoc]
  exact isPrefixOf_append_self _ _

theorem tline_trim (n c : Nat) :
    trim_bytes ((s2l ("=yend size=") ++ natDec n ++ s2l (" crc32=") ++ hex8 c) ++ [10])
      = some (s2l ("=yend size=") ++ natDec n ++ s2l (" crc32=") ++ hex8 c) := by
  have hsh : s2l ("=yend size=") ++ natDec n ++ s2l (" crc32=") ++ hex8 c
      = 61 :: ((s2l ("yend size=") ++ natDec n ++ s2l (" crc32=")
          ++ [hexDigitChar (c / 268435456 % 16), hexDigitChar (c / 16777216 % 16),
              hexDigitChar (c / 1048576 % 16), hexDigitChar (c / 65536 % 16),
              hexDigitChar (c / 4096 % 16), hexDigitChar (c / 256 % 16),
              hexDigitChar (c / 16 % 16)]) ++ [hexDigitChar (c % 16)]) := by
    rw [show s2l ("=yend size=") = 61 :: s2l ("yend size=") from by decide]
    simp [hex8, List.append_assoc]
  rw [hsh]
  exact trim_bytes_sandwich_nl 61 _ _ (by decide)
    (hexDigitChar_props (c % 16) (Nat.mod_lt _ (by omega))).2.2.1

theorem tline_not_ypart (n c : Nat) :
    (s2l ("=ypart ")).isPrefixOf
      (s2l ("=yend size=") ++ natDec n ++ s2l (" crc32=") ++ hex8 c) = false := by
  rw [show s2l ("=ypart ") = 61 :: 121 :: 112 :: s2l ("art ") from by decide,
    show s2l ("=yend size=") = 61 :: 121 :: 101 :: s2l ("nd size=") from by decide]
  simp [List.isPrefixOf]

/-! ## Round-trip assembly -/

theorem finishTrailer_single (hdr : YencHeader) (B : List Nat) (n : Nat) :
    finishTrailer hdr none (some (List.foldl crcUpd crcInit B)) B
        ⟨n, none, none, some (crc32 B)⟩
      = .ok (hdr, none, some ⟨n, none, none, some (crc32 B)⟩, B) := by
  rw [finishTrailer, crcFinish]
  dsimp only
  simp only [Option.isSome_none, Bool.false_eq_true, if_false]
  rw [if_neg (show ¬ (crcFin (List.foldl crcUpd crcInit B) ≠ crc32 B) from by
    rw [crc32]; exact fun h => h rfl)]

theorem findHeaderLoop_start (n : Nat) (fb : List Nat) (hdr : YencHeader)
    (hfbA : ∀ c ∈ fb, c < 128)
    (htrim : trim_bytes (headerLine 128 n fb ++ [10]) = some (headerLine 128 n fb))
    (hparse : YencHeader.parse (headerLine 128 n fb) = .ok hdr) :
    ∀ rest2 : List (List Nat),
      findHeaderLoop ((headerLine 128 n fb ++ [10]) :: rest2) = .ok (hdr, rest2) := by
  intro rest2
  rw [findHeaderLoop, htrim]
  dsimp only
  rw [if_pos (headerLine_pre n fb), utf8Decode_ascii _ (headerLine_ascii n fb hfbA)]
  dsimp only
  rw [hparse]

theorem decode_encodeStream (B fb : List Nat) (hdr : YencHeader)
    (hB : ∀ b ∈ B, b < 256) (hn : B.length < 18446744073709551616)
    (hfb10 : (10 : Nat) ∉ fb) (hfbA : ∀ c ∈ fb, c < 128)
    (htrim : trim_bytes (headerLine 128 B.length fb ++ [10])
      = some (headerLine 128 B.length fb))
    (hparse : YencHeader.parse (headerLine 128 B.length fb) = .ok hdr)
    (hpart : hdr.part = none) :
    decodeModel false true
        (headerLine 128 B.length fb ++ [10] ++ encBodyAux 128 B 0
          ++ endLineSingle B.length (some (crc32 B)) ++ [10])
      = .ok (hdr, none, some ⟨B.length, none, none, some (crc32 B)⟩, B) := by
  obtain ⟨Ds, hLs, hflat, hDne⟩ := encBodyLines_spec 128 B 0 [] [] rfl rfl
  rw [List.nil_append] at hflat
  have hbody : encBodyAux 128 B 0 = joinNl (Ds.map flatEsc) := by
    have h0 := encBodyAux_eq_joinNl 128 B 0 [] rfl
    rw [List.nil_append] at h0
    rw [h0, hLs]
  have hDlt : ∀ D ∈ Ds, ∀ b ∈ D, b < 256 := by
    intro D hD b hb
    exact hB b (by rw [← hflat]; exact List.mem_flatten.mpr ⟨D, hD, hb⟩)
  have hclt : crc32 B < 4294967296 := crc32_lt B hB
  have htparse : YencTrailer.parse
        (s2l ("=yend size=") ++ natDec B.length ++ s2l (" crc32=") ++ hex8 (crc32 B))
      = .ok ⟨B.length, none, none, some (crc32 B)⟩ :=
    YencTrailer_parse_line B.length (crc32 B) hn hclt
  have hstream : headerLine 128 B.length fb ++ [10] ++ encBodyAux 128 B 0
      ++ endLineSingle B.length (some (crc32 B)) ++ [10]
      = headerLine 128 B.length fb ++ 10 :: (joinNl (Ds.map flatEsc)
          ++ ((s2l ("=yend size=") ++ natDec B.length ++ s2l (" crc32=")
            ++ hex8 (crc32 B)) ++ [10])) := by
    rw [hbody, show endLineSingle B.length (some (crc32 B))
      = s2l ("=yend size=") ++ natDec B.length ++ s2l (" crc32=") ++ hex8 (crc32 B) from rfl]
    simp [List.append_assoc]
  have hlines : readLines (headerLine 128 B.length fb ++ 10 :: (joinNl (Ds.map flatEsc)
      ++ ((s2l ("=yend size=") ++ natDec B.length ++ s2l (" crc32=")
        ++ hex8 (crc32 B)) ++ [10])))
      = (headerLine 128 B.length fb ++ [10])
        :: (Ds.map (fun D => flatEsc D ++ [10])
          ++ [(s2l ("=yend size=") ++ natDec B.length ++ s2l (" crc32=")
            ++ hex8 (crc32 B)) ++ [10]]) := by
    rw [readLines_line _ _ (headerLine_no10 B.length fb hfb10)]
    rw [readLines_joinNl (Ds.map flatEsc)
      (by
        intro l hl
        obtain ⟨D, hD, rfl⟩ := List.mem_map.mp hl
        intro h
        exact (flatEsc_all D (hDlt D hD) 10 h).2 rfl)]
    rw [show (s2l ("=yend size=") ++ natDec B.length ++ s2l (" crc32=") ++ hex8 (crc32 B))
        ++ [10]
      = (s2l ("=yend size=") ++ natDec B.length ++ s2l (" crc32=") ++ hex8 (crc32 B))
        ++ 10 :: ([] : List Nat) from rfl]
    rw [readLines_line _ _ (tline_no10 B.length (crc32 B))]
    rw [List.map_map]
    rfl
  rw [hstream, decodeModel, hlines,
    findHeaderLoop_start B.length fb hdr hfbA htrim hparse]
  dsimp only
  rcases Ds with _ | ⟨D1, Dt⟩
  · -- empty body: B = []
    have hBnil : B = [] := by simpa using hflat.symm
    rw [List.map_nil, List.nil_append]
    dsimp only
    rw [tline_trim B.length (crc32 B)]
    dsimp only
    rw [if_neg (by rw [tline_not_ypart B.length (crc32 B)]; exact fun h => by simp at h)]
    rw [hpart]
    dsimp only [Option.isSome_none, Bool.false_eq_true, if_false]
    have hchain := bodyLoop_chain hdr none
      (s2l ("=yend size=") ++ natDec B.length ++ s2l (" crc32=") ++ hex8 (crc32 B))
      (s2l ("=yend size=") ++ natDec B.length ++ s2l (" crc32=") ++ hex8 (crc32 B))
      ⟨B.length, none, none, some (crc32 B)⟩
      (tline_trim B.length (crc32 B)) (tline_pre B.length (crc32 B))
      (utf8Decode_ascii _ (tline_ascii B.length (crc32 B))) htparse
      [] (by simp) crcInit []
    simp only [List.map_nil, List.nil_append, List.tail_cons, List.headD_cons,
      List.flatten_nil, List.foldl_nil] at hchain
    rw [if_pos rfl, hchain, if_neg (show ¬ ((false : Bool) = true) from by simp)]
    subst hBnil
    exact finishTrailer_single hdr [] (List.length [])
  · -- nonempty body
    rw [List.map_cons, List.cons_append]
    dsimp only
    rw [trim_bytes_flatEsc D1 (hDlt D1 (by simp)) (hDne D1 (by simp))]
    dsimp only
    rw [if_neg (by
      rw [show s2l ("=ypart ") = 61 :: 121 :: s2l ("part ") from by decide,
        flatEsc_no_eqy D1 (hDlt D1 (by simp)) (hDne D1 (by simp))]
      exact fun h => by simp at h)]
    rw [hpart]
    rw [if_neg (show ¬ ((Option.none : Option Nat).isSome = true) from by simp)]
    rw [if_pos rfl]
    have hchain := bodyLoop_chain hdr none
      (s2l ("=yend size=") ++ natDec B.length ++ s2l (" crc32=") ++ hex8 (crc32 B))
      (s2l ("=yend size=") ++ natDec B.length ++ s2l (" crc32=") ++ hex8 (crc32 B))
      ⟨B.length, none, none, some (crc32 B)⟩
      (tline_trim B.length (crc32 B)) (tline_pre B.length (crc32 B))
      (utf8Decode_ascii _ (tline_ascii B.length (crc32 B))) htparse
      (D1 :: Dt) (fun D hD => ⟨hDlt D hD, hDne D hD⟩) crcInit []
    simp only [List.map_cons, List.cons_append, List.tail_cons, List.headD_cons] at hchain
    rw [hchain, List.nil_append]
    rw [show (D1 :: Dt).flatten = B from hflat]
    exact finishTrailer_single hdr B B.length

/-! ## Lenient decoding totality -/

theorem decodeChars_lenient (t : List Nat) :
    ∀ esc, ∃ dl, decodeChars false t esc = .ok (dl, escLine esc t) := by
  induction t with
  | nil => intro esc; exact ⟨[], rfl⟩
  | cons c cs ih =>
    intro esc
    by_cases hc : c = 61
    · subst hc
      obtain ⟨dl, hdl⟩ := ih true
      refine ⟨dl, ?_⟩
      rw [decodeChars, if_pos (show (61 : Nat) = ESCAPE_CHAR from rfl), hdl]
      rfl
    · by_cases hesc : esc = true
      · subst hesc
        obtain ⟨dl, hdl⟩ := ih false
        refine ⟨decode_byte (wsub8 c ESCAPE_OFFSET) :: dl, ?_⟩
        rw [decodeChars, if_neg (show ¬ (c = ESCAPE_CHAR) from hc), if_pos rfl]
        simp only [Bool.false_eq_true, false_and, if_false]
        rw [hdl]
        show Except.ok (decode_byte (wsub8 c ESCAPE_OFFSET) :: dl, escLine false cs) = _
        rw [show escLine true (c :: cs) = escLine false cs from by
          simp only [escLine, List.foldl_cons]
          rw [show (c == 61) = false from by simp [hc]]]
      · have hesc2 : esc = false := by simpa using hesc
        subst hesc2
        obtain ⟨dl, hdl⟩ := ih false
        refine ⟨decode_byte c :: dl, ?_⟩
        rw [decodeChars, if_neg (show ¬ (c = ESCAPE_CHAR) from hc)]
        simp only [Bool.false_eq_true, if_false]
        rw [hdl]
        show Except.ok (decode_byte c :: dl, escLine false cs) = _
        rw [show escLine false (c :: cs) = escLine false cs from by
          simp only [escLine, List.foldl_cons]
          rw [show (c == 61) = false from by simp [hc]]]

/-! ## Part-line scan lemmas -/

theorem scanPart_begin_any (acc : PartAcc) (v : List Nat) :
    scanPart acc (s2l ("begin=") ++ v) = { acc with begin := parseNat v } := by
  rw [show s2l ("begin=") ++ v = s2l ("begin") ++ 61 :: v from by
    rw [show s2l ("begin=") = s2l ("begin") ++ [61] from by decide]; simp]
  rw [scanPart, splitOnceEq_append _ _ (by decide)]
  dsimp only
  rw [if_pos rfl]

/-! ## Error message discrimination -/

theorem partSizeMsg_five (a b : Nat) : (partSizeMsg a b)[5]? = some 115 := by
  unfold partSizeMsg
  rw [List.getElem?_append_left (by
    rw [List.length_append, List.length_append]
    have : (s2l ("Part size mismatch: trailer says ")).length = 33 := by decide
    omega)]
  rw [List.getElem?_append_left (by
    have : (s2l ("Part size mismatch: trailer says ")).length = 33 := by decide
    rw [List.length_append]
    omega)]
  rw [List.getElem?_append_left (by
    have : (s2l ("Part size mismatch: trailer says ")).length = 33 := by decide
    omega)]
  decide

theorem partNumMsg_five (a : Nat) (b : Option Nat) : (partNumMsg a b)[5]? = some 110 := by
  unfold partNumMsg
  rw [List.getElem?_append_left (by
    rw [List.length_append, List.length_append]
    have : (s2l ("Part number mismatch: header says ")).length = 34 := by decide
    omega)]
  rw [List.getElem?_append_left (by
    have : (s2l ("Part number mismatch: header says ")).length = 34 := by decide
    rw [List.length_append]
    omega)]
  rw [List.getElem?_append_left (by
    have : (s2l ("Part number mismatch: header says ")).length = 34 := by decide
    omega)]
  decide

theorem partSizeMsg_ne_partNumMsg (a b c : Nat) (d : Option Nat) :
    partSizeMsg a b ≠ partNumMsg c d := by
  intro h
  have h5 := congrArg (fun l : List Nat => l[5]?) h
  simp only at h5
  rw [partSizeMsg_five, partNumMsg_five] at h5
  simp at h5

/-! ## Claim theorems -/

/-- C1: decoding the result of encoding any byte sequence `B` with default
options (fixed filename `test.bin`, line length 128, CRC on) succeeds and
returns raw output exactly equal to `B` (together with the parsed header and
trailer).  The hypotheses only restate the `u8`/`usize` domain of the Rust
types: every byte is below 256 and the length fits in a `usize`. -/
theorem C1_roundtrip (B : List Nat) (hB : ∀ b ∈ B, b < 256)
    (hlen : B.length < 18446744073709551616) :
    decodeModel false true (encodeStream 128 true (s2l ("test.bin")) B)
      = .ok (⟨s2l ("test.bin"), B.length, some 128, none, none⟩, none,
          some ⟨B.length, none, none, some (crc32 B)⟩, B) := by
  rw [encodeStream,
    show utf8Encode (s2l ("test.bin")) = s2l ("test.bin") from by decide,
    show (if true then some (crc32 B) else none) = some (crc32 B) from rfl]
  have hparse : YencHeader.parse (headerLine 128 B.length (s2l ("test.bin")))
      = .ok ⟨s2l ("test.bin"), B.length, some 128, none, none⟩ := by
    have h := YencHeader_parse_line B.length hlen (s2l ("test.bin")) [] (by decide) (Or.inl rfl)
    rw [List.append_nil] at h
    rw [headerLine128]
    exact h
  have htrim : trim_bytes (headerLine 128 B.length (s2l ("test.bin")) ++ [10])
      = some (headerLine 128 B.length (s2l ("test.bin"))) := by
    rw [show s2l ("test.bin") = s2l ("test.bi") ++ [110] from by decide]
    exact headerLine_trim B.length (s2l ("test.bi")) 110 (by decide)
  exact decode_encodeStream B (s2l ("test.bin")) ⟨s2l ("test.bin"), B.length, some 128, none, none⟩
    hB hlen (by decide) (by decide) htrim hparse rfl

/-- Witness for C1 at a concrete input exercising NUL, TAB, the escape byte
`'='` and the maximal byte value. -/
theorem C1_roundtrip_witness :
    decodeModel false true (encodeStream 128 true (s2l ("test.bin")) [0, 9, 61, 255])
      = .ok (⟨s2l ("test.bin"), 4, some 128, none, none⟩, none,
          some ⟨4, none, none, some (crc32 [0, 9, 61, 255])⟩, [0, 9, 61, 255]) :=
  C1_roundtrip [0, 9, 61, 255] (by decide) (by decide)

/-- C2 counterexample: in the stream whose data region is `"==@"`, the first
`'='` arms the escape and the next byte is `'='` (61) itself.  The claim says
the decoder then emits `decode_byte((61 - 64) mod 256) = 211` and continues
after it (so the output would begin with 211 and also decode `'@'` as a
literal, giving `[211, 22]`); the code instead treats the second `'='` as a
fresh escape marker, emits nothing for it, and decodes `'@'` as the escaped
pair, producing exactly `[214]`. -/
theorem C2_counterexample :
    decodeModel false true (s2l ("=ybegin line=128 size=1 name=a\n==@\n=yend size=1\n"))
      = .ok (⟨s2l ("a"), 1, some 128, none, none⟩, none, some ⟨1, none, none, none⟩, [214])
    ∧ decode_byte (wsub8 61 64) = 211
    ∧ decode_byte (wsub8 64 64) = 214
    ∧ [214] ≠ [211, decode_byte 64] := by decide

/-- C2 amended: upon a literal `'='` in the data region, if the following
byte is any value other than `'='` the decoder consumes it and emits
`decode_byte((next - 64) mod 256)`; if the following byte is `'='` itself it
is not consumed as an escape pair — it re-arms the escape state and nothing
is emitted for it. -/
theorem C2_escape_step (next : Nat) (rest : List Nat) :
    (next ≠ 61 → decodeChars false (61 :: next :: rest) false
      = (decodeChars false rest false).map
          (fun p => (decode_byte (wsub8 next 64) :: p.1, p.2)))
    ∧ decodeChars false (61 :: 61 :: rest) false = decodeChars false rest true := by
  constructor
  · intro hne
    rw [decodeChars, if_pos (show (61 : Nat) = ESCAPE_CHAR from rfl),
      decodeChars, if_neg (show ¬ (next = ESCAPE_CHAR) from hne), if_pos rfl]
    simp only [Bool.false_eq_true, false_and, if_false]
    rfl
  · rw [decodeChars, if_pos (show (61 : Nat) = ESCAPE_CHAR from rfl),
      decodeChars, if_pos (show (61 : Nat) = ESCAPE_CHAR from rfl)]

/-- Witness for C2's amended statement at `next = 64` (`'@'`). -/
theorem C2_escape_step_witness :
    decodeChars false [61, 64] false
      = (decodeChars false [] false).map (fun p => (decode_byte (wsub8 64 64) :: p.1, p.2))
    ∧ decodeChars false [61, 61] false = decodeChars false [] true :=
  ⟨(C2_escape_step 64 []).1 (by decide), (C2_escape_step 64 []).2⟩

/-- C3 counterexample: with configured line length 1, the single raw byte 214
encodes to the escape pair `"=@"`, and the emitted body line carries 2
encoded octets — more than the configured length — so escape pairs do push a
line past `L`. -/
theorem C3_counterexample :
    (readLines (encodeStream 1 true (s2l ("a")) [214]))[1]? = some [61, 64, 10]
    ∧ trim_bytes [61, 64, 10] = some [61, 64]
    ∧ ¬ (([61, 64] : List Nat).length ≤ 1) := by decide

/-- C3 amended: for every input and every configured line length `L ≥ 1`,
each body line emitted by the shared body loop of `Encoder::encode` and
`Encoder::encode_part` holds at most `L + 1` encoded octets (excluding the
line terminator): a line exceeds `L` by exactly one octet only when a 2-byte
escape pair straddles the wrap boundary.  The byte-range hypothesis restates
the `u8` domain. -/
theorem C3_line_bound (L : Nat) (hL : 1 ≤ L) (data : List Nat)
    (hd : ∀ b ∈ data, b < 256) :
    ∀ l ∈ readLines (encBodyAux L data 0),
      ∃ t, trim_bytes l = some t ∧ t.length ≤ L + 1 := by
  obtain ⟨Ds, hLs, hflat, hDne⟩ := encBodyLines_spec L data 0 [] [] rfl rfl
  rw [List.nil_append] at hflat
  have hbody : encBodyAux L data 0 = joinNl (Ds.map flatEsc) := by
    have h0 := encBodyAux_eq_joinNl L data 0 [] rfl
    rw [List.nil_append] at h0
    rw [h0, hLs]
  have hDlt : ∀ D ∈ Ds, ∀ b ∈ D, b < 256 := by
    intro D hD b hb
    exact hd b (by rw [← hflat]; exact List.mem_flatten.mpr ⟨D, hD, hb⟩)
  have hrl : readLines (encBodyAux L data 0) = (Ds.map flatEsc).map (fun l => l ++ [10]) := by
    rw [hbody, show joinNl (Ds.map flatEsc) = joinNl (Ds.map flatEsc) ++ [] from by simp,
      readLines_joinNl (Ds.map flatEsc)
        (by
          intro l hl
          obtain ⟨D, hD, rfl⟩ := List.mem_map.mp hl
          intro h
          exact (flatEsc_all D (hDlt D hD) 10 h).2 rfl)]
    simp [readLines, readLinesAux]
  intro l hl
  rw [hrl] at hl
  obtain ⟨l0, hl0, rfl⟩ := List.mem_map.mp hl
  obtain ⟨D, hD, rfl⟩ := List.mem_map.mp hl0
  refine ⟨flatEsc D, trim_bytes_flatEsc D (hDlt D hD) (hDne D hD), ?_⟩
  have : flatEsc D ∈ encBodyLines L data 0 [] := by
    rw [hLs]
    exact List.mem_map.mpr ⟨D, hD, rfl⟩
  exact encBodyLines_len L hL data 0 [] rfl (by omega) _ this

/-- Witness for C3's amended bound with `L = 1` and the escaped byte 214:
the single body line holds exactly `L + 1 = 2` octets. -/
theorem C3_line_bound_witness :
    ∃ t, trim_bytes [61, 64, 10] = some t ∧ t.length ≤ 1 + 1 :=
  C3_line_bound 1 (by decide) [214] (by decide) [61, 64, 10] (by decide)

/-- C4 counterexample: the stream whose single data line is `"="` leaves the
escape flag armed when the end line `"=yend size=0"` is reached; the claim
says decode must fail with a truncated-escape error, but the code checks the
end-line prefix before consulting the escape flag and returns success,
silently dropping the dangling marker. -/
theorem C4_counterexample :
    decodeModel false true (s2l ("=ybegin line=128 size=0 name=a\n=\n=yend size=0\n"))
      = .ok (⟨s2l ("a"), 0, some 128, none, none⟩, none, some ⟨0, none, none, none⟩, []) := by
  decide

/-- C4 amended: the truncated-escape error is raised only in the
end-of-stream case.  In lenient mode, whenever the remaining lines of the
data region contain no end line and processing them leaves the escape flag
set, the body loop fails with exactly the incomplete-escape error (it never
silently succeeds at end of stream); if instead an end line is reached while
the flag is set, the dangling marker is silently dropped (see the
counterexample). -/
theorem C4_truncated_escape (hdr : YencHeader) (pinfo : Option YencPart) :
    ∀ (rest : List (List Nat)) (cur : List Nat) (esc : Bool) (cst : Option Nat)
      (out : List Nat),
    (∀ l ∈ cur :: rest, trim_bytes l = some l
      ∧ (s2l ("=yend ")).isPrefixOf l = false) →
    List.foldl escLine esc (cur :: rest) = true →
    bodyLoop false hdr pinfo rest cur esc cst out
      = .err (.invalidData (s2l ("File ended with incomplete escape sequence"))) := by
  intro rest
  induction rest with
  | nil =>
    intro cur esc cst out hlines hesc
    have hc := hlines cur (by simp)
    rw [bodyLoop, hc.1]
    dsimp only
    rw [if_neg (by rw [hc.2]; exact fun h => by simp at h)]
    obtain ⟨dl, hdl⟩ := decodeChars_lenient cur esc
    rw [hdl]
    dsimp only
    rw [if_pos (by simpa using hesc)]
  | cons nl rs ih =>
    intro cur esc cst out hlines hesc
    have hc := hlines cur (by simp)
    rw [bodyLoop, hc.1]
    dsimp only
    rw [if_neg (by rw [hc.2]; exact fun h => by simp at h)]
    obtain ⟨dl, hdl⟩ := decodeChars_lenient cur esc
    rw [hdl]
    dsimp only
    exact ih nl (escLine esc cur) _ (out ++ dl)
      (fun l hl => hlines l (by simp at hl; rcases hl with h | h <;> simp [h]))
      (by rw [List.foldl_cons] at hesc; exact hesc)

/-- Witness for C4's amended statement: a body consisting of the single line
`"="` hits end of stream with the escape flag set and decode fails with the
incomplete-escape error. -/
theorem C4_truncated_escape_witness :
    bodyLoop false ⟨[], 0, none, none, none⟩ none [] [61] false none []
      = .err (.invalidData (s2l ("File ended with incomplete escape sequence"))) :=
  C4_truncated_escape ⟨[], 0, none, none, none⟩ none [] [61] false none []
    (by decide) (by decide)

theorem crcFinish_spec (hdr : YencHeader) (pinfo : Option YencPart) (st : Nat)
    (out : List Nat) (trailer : YencTrailer) :
    (∀ e, (if pinfo.isSome then trailer.pcrc32 else trailer.crc32) = some e →
        ((crcFin st ≠ e →
            crcFinish hdr pinfo (some st) out trailer = .err (.crcMismatch e (crcFin st)))
          ∧ (crcFin st = e →
            crcFinish hdr pinfo (some st) out trailer = .ok (hdr, pinfo, some trailer, out))))
    ∧ ((if pinfo.isSome then trailer.pcrc32 else trailer.crc32) = none →
        crcFinish hdr pinfo (some st) out trailer = .ok (hdr, pinfo, some trailer, out)) := by
  constructor
  · intro e he
    constructor
    · intro hne
      simp only [crcFinish, he]
      rw [if_pos hne]
    · intro heq
      simp only [crcFinish, he]
      rw [if_neg (by rw [heq]; exact fun h => h rfl)]
  · intro hnone
    simp only [crcFinish, hnone]

/-- C5: with CRC validation enabled (register state `st`, accumulated over
the decoded bytes), once the part-size and part-number checks pass, the
trailer-validation step of `Decoder::decode` returns `CrcMismatch` carrying
the trailer's expected value and the computed value exactly when the
computed CRC differs from the relevant trailer field (`pcrc32` when a part
record exists, `crc32` otherwise), succeeds when they agree, and never
fails when the relevant field is absent. -/
theorem C5_crc_check (hdr : YencHeader) (pinfo : Option YencPart)
    (decoded out : List Nat) (trailer : YencTrailer) (st : Nat)
    (_hst : st = List.foldl crcUpd crcInit decoded)
    (hsz : ∀ p, pinfo = some p → p.size? = some trailer.size)
    (hnum : ∀ p hp, pinfo = some p → hdr.part = some hp → trailer.part = some hp) :
    (∀ e, (if pinfo.isSome then trailer.pcrc32 else trailer.crc32) = some e →
        ((crcFin st ≠ e →
            finishTrailer hdr pinfo (some st) out trailer = .err (.crcMismatch e (crcFin st)))
          ∧ (crcFin st = e →
            finishTrailer hdr pinfo (some st) out trailer
              = .ok (hdr, pinfo, some trailer, out))))
    ∧ ((if pinfo.isSome then trailer.pcrc32 else trailer.crc32) = none →
        finishTrailer hdr pinfo (some st) out trailer = .ok (hdr, pinfo, some trailer, out)) := by
  have hred : finishTrailer hdr pinfo (some st) out trailer
      = crcFinish hdr pinfo (some st) out trailer := by
    rcases hp : pinfo with _ | p
    · rw [finishTrailer]
    · simp only [finishTrailer, hsz p hp]
      rw [if_neg (fun h => h rfl)]
      rcases hh : hdr.part with _ | hpn
      · simp only [hh]
      · simp only [hh]
        rw [if_neg (by rw [hnum p hpn hp hh]; exact fun h => h rfl)]
  rw [hred]
  exact crcFinish_spec hdr pinfo st out trailer

/-- Witness for C5: a single-part trailer claiming `crc32 = 0` against the
decoded byte `[1]`, whose actual CRC differs, yields the mismatch error with
both values; the same state with the field absent succeeds. -/
theorem C5_crc_check_witness :
    finishTrailer ⟨[], 0, none, none, none⟩ none
        (some (List.foldl crcUpd crcInit [1])) [1] ⟨1, none, none, some 0⟩
      = .err (.crcMismatch 0 (crcFin (List.foldl crcUpd crcInit [1]))) :=
  ((C5_crc_check ⟨[], 0, none, none, none⟩ none [1] [1] ⟨1, none, none, some 0⟩
      (List.foldl crcUpd crcInit [1]) rfl
      (fun p hp => by simp at hp) (fun p hp hq => by simp at hq)).1 0 rfl).1 (by decide)

/-- C6: when a part record was established and `end - begin + 1` is defined,
the trailer check of `Decoder::decode` fails with the part-size-mismatch
`InvalidData` error naming the trailer's size and the implied size whenever
they differ, and when they agree the check passes: whatever the rest of the
validation produces, it is never a part-size-mismatch error. -/
theorem C6_part_size (hdr : YencHeader) (p : YencPart) (cst : Option Nat)
    (out : List Nat) (trailer : YencTrailer) (s : Nat) (hs : p.size? = some s) :
    (trailer.size ≠ s →
      finishTrailer hdr (some p) cst out trailer
        = .err (.invalidData (partSizeMsg trailer.size s)))
    ∧ (trailer.size = s →
      ∀ e, finishTrailer hdr (some p) cst out trailer = .err e →
        ∀ x y : Nat, e ≠ .invalidData (partSizeMsg x y)) := by
  constructor
  · intro hne
    simp only [finishTrailer, hs]
    rw [if_pos hne]
  · intro heq e herr x y
    simp only [finishTrailer, hs] at herr
    rw [if_neg (by rw [heq]; exact fun h => h rfl)] at herr
    rcases hh : hdr.part with _ | hpn
    · rw [hh] at herr
      simp only at herr
      rcases hcst : cst with _ | st
      · rw [hcst] at herr
        simp only [crcFinish] at herr
        exact absurd herr (by simp)
      · rw [hcst] at herr
        simp only [crcFinish] at herr
        rcases hex : (if (Option.some p).isSome then trailer.pcrc32 else trailer.crc32)
          with _ | ev
        · rw [hex] at herr
          simp at herr
        · rw [hex] at herr
          dsimp only at herr
          by_cases hcm : crcFin st ≠ ev
          · rw [if_pos hcm] at herr
            injection herr with h2
            rw [← h2]
            simp
          · rw [if_neg hcm] at herr
            simp at herr
    · rw [hh] at herr
      simp only at herr
      by_cases hnp : trailer.part ≠ some hpn
      · rw [if_pos hnp] at herr
        injection herr with h2
        rw [← h2]
        intro hcontra
        injection hcontra with h3
        exact partSizeMsg_ne_partNumMsg x y hpn trailer.part h3.symm
      · rw [if_neg hnp] at herr
        rcases hcst : cst with _ | st
        · rw [hcst] at herr
          simp only [crcFinish] at herr
          exact absurd herr (by simp)
        · rw [hcst] at herr
          simp only [crcFinish] at herr
          rcases hex : (if (Option.some p).isSome then trailer.pcrc32 else trailer.crc32)
            with _ | ev
          · rw [hex] at herr
            simp at herr
          · rw [hex] at herr
            dsimp only at herr
            by_cases hcm : crcFin st ≠ ev
            · rw [if_pos hcm] at herr
              injection herr with h2
              rw [← h2]
              simp
            · rw [if_neg hcm] at herr
              simp at herr

/-- Witness for C6: a part line implying 5 bytes (`begin=1 end=5`) against a
trailer declaring `size=10` produces the part-size-mismatch error naming 10
and 5. -/
theorem C6_part_size_witness :
    finishTrailer ⟨[], 0, none, none, none⟩ (some ⟨1, 5⟩) none []
        ⟨10, none, none, none⟩
      = .err (.invalidData (partSizeMsg 10 5)) :=
  (C6_part_size ⟨[], 0, none, none, none⟩ ⟨1, 5⟩ none [] ⟨10, none, none, none⟩ 5
    (by decide)).1 (by decide)

/-- C7: whenever the input length differs from the (well-defined) expected
part size `end - begin + 1`, `Encoder::encode_part` returns the
`InvalidData` size-mismatch error and the output writer is returned exactly
as it was passed in — the check precedes every write, so encoding is
all-or-nothing. -/
theorem C7_encode_part_mismatch (L : Nat) (crcb : Bool) (data fname : List Nat)
    (info : MultiPartInfo) (w : List Nat) (s : Nat)
    (hs : info.expected_size? = some s) (hne : data.length ≠ s) :
    encodePart L crcb data fname info w
      = (.err (.invalidData (s2l ("Part size mismatch: expected ") ++ natDec s
          ++ s2l (" bytes (from begin=") ++ natDec info.begin
          ++ s2l (" end=") ++ natDec info.endPos
          ++ s2l ("), but got ") ++ natDec data.length ++ s2l (" bytes"))), w) := by
  rw [encodePart, hs]
  dsimp only
  rw [if_pos hne]

/-- Witness for C7: three bytes supplied for a part declared as
`begin=1 end=5` (five bytes) fail with the mismatch error, leaving the
writer (here pre-seeded with one byte) untouched. -/
theorem C7_encode_part_mismatch_witness :
    encodePart 128 true [0, 1, 2] (s2l ("test.bin")) ⟨1, 2, 1, 5, 10, none⟩ [99]
      = (.err (.invalidData (s2l ("Part size mismatch: expected ") ++ natDec 5
          ++ s2l (" bytes (from begin=") ++ natDec 1 ++ s2l (" end=") ++ natDec 5
          ++ s2l ("), but got ") ++ natDec 3 ++ s2l (" bytes"))), [99]) :=
  C7_encode_part_mismatch 128 true [0, 1, 2] (s2l ("test.bin")) ⟨1, 2, 1, 5, 10, none⟩
    [99] 5 (by decide) (by decide)

/-- C8: the part line `"=ypart begin=5 end=3"` parses successfully, yet
`YencPart::size` computes `end - begin + 1` on a `usize`, which underflows
for it (modelled as the checked-arithmetic panic `none`); a decode reaching
the trailer's part-size check on such a stream panics instead of returning a
`YencError`, and `MultiPartInfo::expected_size` has the same underflow on
the encoder side, so `encode_part` with `begin=5 end=3` panics as well. -/
theorem C8_underflow_panics :
    YencPart.parse (s2l ("=ypart begin=5 end=3")) = .ok ⟨5, 3⟩
    ∧ (⟨5, 3⟩ : YencPart).size? = none
    ∧ (⟨1, 2, 5, 3, 10, none⟩ : MultiPartInfo).expected_size? = none
    ∧ decodeModel false true
        (s2l
          ("=ybegin part=1 line=128 size=9 name=a\n=ypart begin=5 end=3\nx\n=yend size=1 part=1\n"))
      = .panicked
    ∧ (encodePart 128 true [1] (s2l ("a")) ⟨1, 2, 5, 3, 10, none⟩ []).1 = .panicked := by
  decide

/-- C9 counterexample: the filename `"a name=z"` contains an ASCII space, and
the claim says the decoded `header.name` equals the text before the first
space, `"a"`.  But the remainder contains a `name=`-shaped token, and the
whitespace-splitting key=value scan assigns the last such token, so decoding
the encoded stream returns `header.name = "z"`, not `"a"`. -/
theorem C9_counterexample :
    decodeModel false true (encodeStream 128 true (s2l ("a name=z")) [])
      = .ok (⟨s2l ("z"), 0, some 128, none, none⟩, none,
          some ⟨0, none, none, some (crc32 [])⟩, [])
    ∧ s2l ("z") ≠ s2l ("a") := by decide

/-- C9 amended: for a filename `a ++ " " ++ b` whose part `a` before the
space is whitespace-free and `'='`-free, and whose remainder `b` contains no
`'='` (so no token of `b` can be mistaken for a key=value pair), no newline,
and does not end in whitespace, the encoder writes the filename verbatim but
decoding returns `header.name = a` — only the text before the first space —
so such filenames do not round-trip through the header. -/
theorem C9_name_split (B : List Nat) (hB : ∀ b ∈ B, b < 256)
    (hlen : B.length < 18446744073709551616)
    (a bm : List Nat) (bl : Nat)
    (ha : ∀ c ∈ a, isRustWs c = false ∧ c ≠ 61 ∧ c < 128)
    (hb : ∀ c ∈ bm ++ [bl], c ≠ 61 ∧ c ≠ 10 ∧ c < 128)
    (hbl : isWsB bl = false) :
    decodeModel false true (encodeStream 128 true (a ++ 32 :: (bm ++ [bl])) B)
      = .ok (⟨a, B.length, some 128, none, none⟩, none,
          some ⟨B.length, none, none, some (crc32 B)⟩, B)
    ∧ a ≠ a ++ 32 :: (bm ++ [bl]) := by
  have hA : ∀ c ∈ a ++ 32 :: (bm ++ [bl]), c < 128 := by
    intro c hc
    rcases List.mem_append.mp hc with h | h
    · exact (ha c h).2.2
    · rcases List.mem_cons.mp h with h | h
      · omega
      · exact (hb c h).2.2
  constructor
  · rw [encodeStream, utf8Encode_ascii _ hA,
      show (if true then some (crc32 B) else none) = some (crc32 B) from rfl]
    have h10 : (10 : Nat) ∉ a ++ 32 :: (bm ++ [bl]) := by
      intro h
      rcases List.mem_append.mp h with h | h
      · exact (ha 10 h).1.symm.trans_ne (by decide) rfl
      · rcases List.mem_cons.mp h with h | h
        · omega
        · exact (hb 10 h).2.1 rfl
    have htrim : trim_bytes (headerLine 128 B.length (a ++ 32 :: (bm ++ [bl])) ++ [10])
        = some (headerLine 128 B.length (a ++ 32 :: (bm ++ [bl]))) := by
      rw [show a ++ 32 :: (bm ++ [bl]) = (a ++ 32 :: bm) ++ [bl] from by simp]
      exact headerLine_trim B.length (a ++ 32 :: bm) bl hbl
    have hparse : YencHeader.parse (headerLine 128 B.length (a ++ 32 :: (bm ++ [bl])))
        = .ok ⟨a, B.length, some 128, none, none⟩ := by
      rw [headerLine128]
      have h := YencHeader_parse_line B.length hlen a (32 :: (bm ++ [bl]))
        (fun c hc => (ha c hc).1)
        (Or.inr ⟨bm ++ [bl], rfl, fun hc => (hb 61 hc).1 rfl⟩)
      rw [show s2l ("=ybegin line=128 size=") ++ natDec B.length ++ s2l (" name=")
          ++ a ++ (32 :: (bm ++ [bl]))
        = s2l ("=ybegin line=128 size=") ++ natDec B.length ++ s2l (" name=")
          ++ (a ++ 32 :: (bm ++ [bl])) from by simp [List.append_assoc]] at h
      exact h
    exact decode_encodeStream B (a ++ 32 :: (bm ++ [bl]))
      ⟨a, B.length, some 128, none, none⟩ hB hlen h10 hA htrim hparse rfl
  · intro h
    have := congrArg List.length h
    simp at this

/-- Witness for C9's amended statement: the filename `"my file.bin"` decodes
with `header.name = "my"`. -/
theorem C9_name_split_witness :
    decodeModel false true
        (encodeStream 128 true (s2l ("my") ++ 32 :: (s2l ("file.bi") ++ [110])) [7])
      = .ok (⟨s2l ("my"), 1, some 128, none, none⟩, none,
          some ⟨1, none, none, some (crc32 [7])⟩, [7])
    ∧ s2l ("my") ≠ s2l ("my") ++ 32 :: (s2l ("file.bi") ++ [110]) :=
  C9_name_split [7] (by decide) (by decide) (s2l ("my")) (s2l ("file.bi")) 110
    (by decide) (by decide) (by decide)

/-- C10: in a begin, part, or end line where a required integer key is
present but its value `v` does not parse as a decimal (`parse().ok()` turns
the failure into `None`), the parser reports `MissingField` for that key —
the same error kind as when the key is absent — rather than a distinct
invalid-value error.  Shown for `size` on the begin line (with the other
required field valid), `begin` on the part line, and `size` on the end
line. -/
theorem C10_bad_value_missing_field (v : List Nat) (hv : parseNat v = none)
    (hvw : ∀ c ∈ v, isRustWs c = false) :
    YencHeader.parse (s2l ("=ybegin size=") ++ v ++ s2l (" name=f"))
      = .error (.missingField (s2l ("size")))
    ∧ YencPart.parse (s2l ("=ypart begin=") ++ v ++ s2l (" end=3"))
      = .error (.missingField (s2l ("begin")))
    ∧ YencTrailer.parse (s2l ("=yend size=") ++ v)
      = .error (.missingField (s2l ("size"))) := by
  refine ⟨?_, ?_, ?_⟩
  · have hline : s2l ("=ybegin size=") ++ v ++ s2l (" name=f")
        = s2l ("=ybegin ") ++ ((s2l ("size=") ++ v) ++ 32 :: s2l ("name=f")) := by
      rw [show s2l ("=ybegin size=") = s2l ("=ybegin ") ++ s2l ("size=") from by decide,
        show s2l (" name=f") = 32 :: s2l ("name=f") from by decide]
      simp [List.append_assoc]
    rw [hline, YencHeader.parse, if_pos (isPrefixOf_append_self _ _)]
    rw [show (s2l ("=ybegin ") ++ ((s2l ("size=") ++ v) ++ 32 :: s2l ("name=f"))).drop 8
      = (s2l ("size=") ++ v) ++ 32 :: s2l ("name=f") from by
        rw [show (8 : Nat) = (s2l ("=ybegin ")).length from by decide, List.drop_left]]
    rw [splitWs_ws_append _ _ 32 (by decide)]
    rw [splitWs_single_token (s2l ("size=") ++ v) (by simp [s2l])
      (by
        have hlit : ∀ c ∈ s2l ("size="), isRustWs c = false := by decide
        intro c hc
        rcases List.mem_append.mp hc with h | h
        · exact hlit c h
        · exact hvw c h)]
    rw [splitWs_single_token (s2l ("name=f")) (by decide) (by decide)]
    rw [show ([s2l ("size=") ++ v] ++ [s2l ("name=f")])
      = [s2l ("size=") ++ v, s2l ("name=f")] from rfl]
    rw [List.foldl_cons, scanHdr_size_any _ v, hv, List.foldl_cons,
      show s2l ("name=f") = s2l ("name=") ++ s2l ("f") from by decide, scanHdr_name]
    rfl
  · have hline : s2l ("=ypart begin=") ++ v ++ s2l (" end=3")
        = s2l ("=ypart ") ++ ((s2l ("begin=") ++ v) ++ 32 :: s2l ("end=3")) := by
      rw [show s2l ("=ypart begin=") = s2l ("=ypart ") ++ s2l ("begin=") from by decide,
        show s2l (" end=3") = 32 :: s2l ("end=3") from by decide]
      simp [List.append_assoc]
    rw [hline, YencPart.parse, if_pos (isPrefixOf_append_self _ _)]
    rw [show (s2l ("=ypart ") ++ ((s2l ("begin=") ++ v) ++ 32 :: s2l ("end=3"))).drop 7
      = (s2l ("begin=") ++ v) ++ 32 :: s2l ("end=3") from by
        rw [show (7 : Nat) = (s2l ("=ypart ")).length from by decide, List.drop_left]]
    rw [splitWs_ws_append _ _ 32 (by decide)]
    rw [splitWs_single_token (s2l ("begin=") ++ v) (by simp [s2l])
      (by
        have hlit : ∀ c ∈ s2l ("begin="), isRustWs c = false := by decide
        intro c hc
        rcases List.mem_append.mp hc with h | h
        · exact hlit c h
        · exact hvw c h)]
    rw [splitWs_single_token (s2l ("end=3")) (by decide) (by decide)]
    rw [show ([s2l ("begin=") ++ v] ++ [s2l ("end=3")])
      = [s2l ("begin=") ++ v, s2l ("end=3")] from rfl]
    rw [List.foldl_cons, scanPart_begin_any _ v, hv, List.foldl_cons,
      show scanPart ⟨none, none⟩ (s2l ("end=3")) = ⟨none, some 3⟩ from by decide]
    rfl
  · have hline : s2l ("=yend size=") ++ v = s2l ("=yend ") ++ (s2l ("size=") ++ v) := by
      rw [show s2l ("=yend size=") = s2l ("=yend ") ++ s2l ("size=") from by decide]
      simp [List.append_assoc]
    rw [hline, YencTrailer.parse, if_pos (isPrefixOf_append_self _ _)]
    rw [show (s2l ("=yend ") ++ (s2l ("size=") ++ v)).drop 6
      = s2l ("size=") ++ v from by
        rw [show (6 : Nat) = (s2l ("=yend ")).length from by decide, List.drop_left]]
    rw [splitWs_single_token (s2l ("size=") ++ v) (by simp [s2l])
      (by
        have hlit : ∀ c ∈ s2l ("size="), isRustWs c = false := by decide
        intro c hc
        rcases List.mem_append.mp hc with h | h
        · exact hlit c h
        · exact hvw c h)]
    rw [List.foldl_cons, scanTrailer_size_any _ v, hv]
    rfl

/-- Witness for C10 at the non-numeric value `"-1"` (a negative number fails
to parse as `usize`). -/
theorem C10_bad_value_missing_field_witness :
    YencHeader.parse (s2l ("=ybegin size=") ++ s2l ("-1") ++ s2l (" name=f"))
      = .error (.missingField (s2l ("size")))
    ∧ YencPart.parse (s2l ("=ypart begin=") ++ s2l ("-1") ++ s2l (" end=3"))
      = .error (.missingField (s2l ("begin")))
    ∧ YencTrailer.parse (s2l ("=yend size=") ++ s2l ("-1"))
      = .error (.missingField (s2l ("size"))) :=
  C10_bad_value_missing_field (s2l ("-1")) (by decide) (by decide)
